import Mathlib

/-!
Verification of the LMS (Large Model Support) graph-rewriting engine
(`lms/lms.py`): a shallow embedding of its data model and operations,
followed by theorems settling the specification claims.

Graph nodes and tensors are identified by natural-number ids.  Python
lists are Lean lists; Python `None` is `Option.none`; code that can raise
is embedded in `Except String`.
-/

namespace LMS

/-- Substring test on character lists: `hasSub pat s` iff `pat` occurs
contiguously in `s` (embeds Python `pat in s` on strings). -/
def hasSub (pat : List Char) : List Char → Bool
  | [] => pat.isEmpty
  | c :: cs => pat.isPrefixOf (c :: cs) || hasSub pat cs

/-- `strHasSub pat s`: Python `pat in s` for strings. -/
def strHasSub (pat s : String) : Bool := hasSub pat.data s.data

/-- `strStarts s p`: Python `s.startswith(p)`. -/
def strStarts (s p : String) : Bool := p.data.isPrefixOf s.data

/-- Insert into a key-sorted list, after all entries of equal key
(the stable insertion step of `sortByKey`). -/
def insSorted {α : Type} (key : α → Int) (a : α) : List α → List α
  | [] => [a]
  | b :: bs => if key a < key b then a :: b :: bs else b :: insSorted key a bs

/-- Stable ascending sort by an integer key: embeds Python
`sorted(l, key=...)`. -/
def sortByKey {α : Type} (key : α → Int) (l : List α) : List α :=
  l.foldl (fun acc a => insSorted key a acc) []

/-- A tensor: produced at one output slot of one node, with a shape
descriptor (`ndims = none` for unknown shape) and the ids of the nodes
consuming it. -/
structure Tensor where
  tid : Nat
  tname : String
  ndims : Option Nat
  consumers : List Nat
deriving Repr, DecidableEq

/-- A graph node (`tf.Operation`): id, qualified name, type tag, output
tensors, input tensor ids, and control-input node ids. -/
structure Node where
  nid : Nat
  nname : String
  nty : String
  outputs : List Tensor
  inputTids : List Nat
  ctrlIns : List Nat
deriving Repr, DecidableEq

/-- The mutable dataflow graph: a list of nodes. -/
structure Graph where
  nodes : List Node
deriving Repr, DecidableEq

/-- Look a node up by id. -/
def findNode (g : Graph) (i : Nat) : Option Node :=
  g.nodes.find? (fun n => n.nid = i)

/-- The node producing the tensor with id `t`, if any. -/
def producerOf (g : Graph) (t : Nat) : Option Nat :=
  (g.nodes.find? (fun n => n.outputs.any (fun ts => ts.tid = t))).map (·.nid)

/-- `_fanouts`: the consuming ops of all outputs of node `i`
(`ge.get_consuming_ops(op.outputs)`). -/
def fanouts (g : Graph) (i : Nat) : List Nat :=
  match findNode g i with
  | none => []
  | some n => n.outputs.foldl (fun acc ts => acc ++ ts.consumers) []

/-- `_fanins`: the generating ops of all inputs of node `i`
(`ge.get_generating_ops(op.inputs)`). -/
def fanins (g : Graph) (i : Nat) : List Nat :=
  match findNode g i with
  | none => []
  | some n => n.inputTids.filterMap (producerOf g)

/-- Control inputs of node `i` (`op.control_inputs`). -/
def ctrlInputs (g : Graph) (i : Nat) : List Nat :=
  match findNode g i with
  | none => []
  | some n => n.ctrlIns

/-- `ge.add_control_inputs(op1, op2)`: unconditionally record `op2` as a
control input of `op1` (graph-editor primitive, no checks). -/
def geAddControlInput (g : Graph) (op1 op2 : Nat) : Graph :=
  { nodes := g.nodes.map (fun n =>
      if n.nid = op1 then { n with ctrlIns := n.ctrlIns ++ [op2] } else n) }

/-- `ge.add_control_inputs(op1, ops2)` with a collection of control
inputs: add each in turn. -/
def geAddControlInputList (g : Graph) (op1 : Nat) (ops2 : List Nat) : Graph :=
  ops2.foldl (fun acc o => geAddControlInput acc op1 o) g

/-- All direct predecessors of a node: data (producers of its inputs)
and control inputs; the edges `u → v` the rank order must respect. -/
def predsOf (g : Graph) (v : Node) : List Nat :=
  v.inputTids.filterMap (producerOf g) ++ v.ctrlIns

/-- Modelled from the spec: the Topological Order Index (`lms/topos.py`,
not part of the sources) assigns each node of the acyclic graph an
integer rank starting at 0 such that every edge, data or control, goes
from lower to higher rank; `size` is the number of rank levels, and
lookups on nodes added after the build return the absent sentinel. -/
structure TopoIndex where
  ranks : List (Nat × Int)
  size : Nat
deriving Repr, DecidableEq

/-- Rank lookup in the index (`TOPOS.get_order`): `none` is the absent
sentinel for nodes outside the build set. -/
def getOrder (t : TopoIndex) (i : Nat) : Option Int :=
  (t.ranks.find? (fun p => p.1 = i)).map (·.2)

/-- Reverse lookup (`TOPOS.get_ops`): the ids of all nodes at a rank. -/
def getOpsByOrder (t : TopoIndex) (o : Int) : List Nat :=
  (t.ranks.filter (fun p => p.2 = o)).map (·.1)

/-- One relaxation pass of the longest-path leveling: each node's rank
becomes 1 + the maximum rank of its predecessors (0 when none). -/
def topoRelax (g : Graph) (cur : List (Nat × Int)) : List (Nat × Int) :=
  g.nodes.map (fun v =>
    (v.nid, ((predsOf g v).filterMap
        (fun u => (cur.find? (fun p => p.1 = u)).map (·.2))).foldl
      (fun m r => max m (r + 1)) 0))

/-- Iterate a function `k` times. -/
def iterRelax {α : Type} (f : α → α) : Nat → α → α
  | 0, a => a
  | k + 1, a => iterRelax f k (f a)

/-- Modelled from the spec: `TOPOS.build` — longest-path leveling of the
acyclic graph, reaching its fixed point after at most `|nodes|` passes. -/
def topoBuild (g : Graph) : TopoIndex :=
  let final : List (Nat × Int) := iterRelax (topoRelax g) g.nodes.length
    (g.nodes.map (fun v => (v.nid, 0)))
  { ranks := final,
    size := if final.isEmpty then 0
      else (final.foldl (fun (m : Int) (p : Nat × Int) => max m p.2) 0).toNat + 1 }

/-- The built-in seed list `_unused_types` of structural op types,
transcribed literally from `LMS.__init__`: the missing comma after
`'AssignSubVariableOp'` in the source makes Python concatenate it with
`'ResourceGather'` into the single element
`"AssignSubVariableOpResourceGather"`. -/
def unusedTypes : List String :=
  ["Const", "Identity",
   "Placeholder", "PlaceholderWithDefault",
   "VariableV2", "Read", "Assign", "VarHandleOp",
   "VarIsInitializedOp", "VariableShape",
   "ReadVariableOp", "AssignVariableOp",
   "AssignAddVariableOp", "AssignSubVariableOpResourceGather",
   "ResourceScatterAdd",
   "ResourceScatterSub", "ResourceScatterMul",
   "ResourceScatterDiv", "ResourceScatterMin",
   "ResourceScatterMax", "ResourceScatterUpdate",
   "ResourceScatterNdUpdate", "ResourceScatterNdAdd",
   "Fill", "Range", "RandomUniform"]

/-- `_filter_scopes_and_types`: the ops of `withinOps` whose qualified
name lies under one of `scopes` or whose type tag is in `types`. -/
def filterScopesAndTypes (withinOps : List Node) (scopes : List String)
    (types : List String) : List Nat :=
  (withinOps.filter (fun op =>
    scopes.any (fun sc => strStarts op.nname sc) || types.contains op.nty)).map (·.nid)

/-- The interval-merging core of `_groupby`: fold the remaining sorted
ranks into the open interval `(lo, hi)`, merging a rank within `limit`
of the current upper bound and starting a new interval otherwise. -/
def mergeRanks (limit : Int) (lo hi : Int) : List Int → List (Int × Int)
  | [] => [(lo, hi)]
  | r :: rs =>
    if r - hi ≤ limit then mergeRanks limit lo r rs
    else (lo, hi) :: mergeRanks limit r r rs

/-- `_groupby`: group ops (given with their topological orders, the
`ops_ords` of the source) into bands whose consecutive ranks are within
`limit`; each band materializes every op whose order falls inside the
band's interval.  `none` embeds the `IndexError` the source raises on an
empty input. -/
def groupby (opsOrds : List (Nat × Int)) (limit : Int) :
    Option (List (List Nat)) :=
  match sortByKey id (opsOrds.map (·.2)) with
  | [] => none
  | r :: rs =>
    some ((mergeRanks limit r r rs).map (fun y =>
      ((opsOrds.filter (fun p => y.1 ≤ p.2 && p.2 ≤ y.2)).map (·.1))))

/-- Remove duplicates keeping first occurrences (embeds building a
Python `set` from a list, with the list's order as iteration order). -/
def dedup (l : List Nat) : List Nat :=
  l.foldl (fun acc a => if acc.contains a then acc else acc ++ [a]) []

/-- Total number of data edges of the graph (a fuel bound for walks). -/
def edgeCount (g : Graph) : Nat :=
  g.nodes.foldl (fun acc n => acc + (fanouts g n.nid).length) 0

/-- Worklist core of the forward walk: visit the frontier over data
fan-out edges, accumulating visited nodes. -/
def forwardWalkAux (g : Graph) : Nat → List Nat → List Nat → List Nat
  | 0, visited, _ => visited
  | _, visited, [] => visited
  | k + 1, visited, f :: fs =>
    if visited.contains f then forwardWalkAux g k visited fs
    else forwardWalkAux g k (visited ++ [f]) (fs ++ fanouts g f)

/-- `_get_forward_walk_ops(op)` (inclusive): all ops reachable from `op`
along data edges, `op` included.  The source memoizes this query in
`_ops_dict`; the cache is consulted only after insertion has finished
and the scheduling phase adds control edges alone, which the walk does
not follow, so the pure function agrees with the cached one. -/
def forwardWalk (g : Graph) (op : Nat) : List Nat :=
  forwardWalkAux g (1 + g.nodes.length * (1 + edgeCount g)) [] [op]

/-- `_add_control_inputs(op1, op2)`: the guarded helper — a no-op
returning `false` when the edge already exists, the reverse control
edge exists, or `op2` already consumes an output of `op1`; otherwise
records the control edge and returns `true`. -/
def addControlInputs (g : Graph) (op1 op2 : Nat) : Bool × Graph :=
  if (ctrlInputs g op1).contains op2 then (false, g)
  else if (ctrlInputs g op2).contains op1 then (false, g)
  else if (fanouts g op1).contains op2 then (false, g)
  else (true, geAddControlInput g op1 op2)

/-- Qualified name of a node (empty for an absent id). -/
def nodeName (g : Graph) (i : Nat) : String :=
  match findNode g i with
  | none => ""
  | some n => n.nname

/-- Python `range(lo, hi)` over integers, as a list. -/
def intRange (lo hi : Int) : List Int :=
  (List.range (hi - lo).toNat).map (fun (k : Nat) => lo + (k : Int))

/-- The candidate set examined by `_do_direct_order` at one rank: the
ops at that rank from which `srcOp` is forward-reachable and whose name
does not contain the conditional-scope fragment `"/cond/"`. -/
def ddoCandidates (g : Graph) (t : TopoIndex) (srcOp : Nat) (i : Int) :
    List Nat :=
  ((getOpsByOrder t i).filter
      (fun op => (forwardWalk g op).contains srcOp)).filter
    (fun op => !(strHasSub "/cond/" (nodeName g op)))

/-- The descending-rank search loop of `_do_direct_order`: stop at the
first rank with a non-empty candidate set and return one member with
its rank. -/
def ddoSearch (g : Graph) (t : TopoIndex) (srcOp : Nat) :
    List Int → Option (Nat × Int)
  | [] => none
  | i :: rest =>
    match ddoCandidates g t srcOp i with
    | [] => ddoSearch g t srcOp rest
    | c :: _ => some (c, i)

/-- `_do_direct_order(fw_op, src_op, distance)`: search the open rank
window `(rank(fw_op), rank(src_op) - distance)` from high to low for a
control-dependency trigger; `none` inside `.ok` is the source's
`(None, -1)` result.  An absent rank for either endpoint is the
`TypeError` the source's arithmetic would raise. -/
def doDirectOrder (g : Graph) (t : TopoIndex) (fwOp srcOp : Nat)
    (distance : Int) : Except String (Option (Nat × Int)) :=
  match getOrder t fwOp, getOrder t srcOp with
  | some fwOrder, some srcOrder =>
    .ok (ddoSearch g t srcOp ((intRange (fwOrder + 1) (srcOrder - distance)).reverse))
  | _, _ => .error "TypeError: unsupported operand type for absent order"

/-- `_add_control_dependency`: find a trigger with `_do_direct_order`
and, when one exists, add the control edge trigger → swap-in with the
guarded helper; when none exists the graph is left unchanged (logged
only). -/
def addControlDependency (g : Graph) (t : TopoIndex)
    (srcOp destOp swapinOp : Nat) (ahead : Int) : Except String Graph := do
  let re ← doDirectOrder g t srcOp destOp ahead
  match re with
  | some (ctrldOp, _) => pure (addControlInputs g swapinOp ctrldOp).2
  | none => pure g

/-- A relocation triple `(src_op, dest_op, swapin_op)` as stored in
`_ops_triples`. -/
abbrev Triple : Type := Nat × Nat × Nat

/-- One iteration of the second loop of `_sequential_strategy`: update
the moving lower bound `lb` / `last_order` pair and emit the current
triple with lookahead `curr - lb`. -/
def seqStep (ordOf : Triple → Int)
    (acc : List (Triple × Int) × Int × Int) (tr : Triple) :
    List (Triple × Int) × Int × Int :=
  let currOrder := ordOf tr
  let lb := if currOrder ≠ acc.2.2 then acc.2.2 else acc.2.1
  let lastOrder := if currOrder ≠ acc.2.2 then currOrder else acc.2.2
  (acc.1 ++ [(tr, currOrder - lb)], lb, lastOrder)

/-- The lookahead schedule of `_sequential_strategy` over the
already-sorted triple list: the leading run sharing the minimum anchor
order gets the fixed lookahead 3; afterwards a moving lower bound `lb`
tracks the previous distinct anchor order and each triple gets
lookahead `curr - lb`. -/
def seqAheads (ordOf : Triple → Int) (x : List Triple) :
    List (Triple × Int) :=
  match x with
  | [] => []
  | x0 :: _ =>
    let x0DestOrder := ordOf x0
    let firstGrp := x.takeWhile (fun tr => ordOf tr = x0DestOrder)
    let rest := x.dropWhile (fun tr => ordOf tr = x0DestOrder)
    firstGrp.map (fun tr => (tr, (3 : Int))) ++
      (rest.foldl (seqStep ordOf) ([], x0DestOrder, x0DestOrder)).1

/-- Maximum of an integer list (`none` on the empty list). -/
def listMax : List Int → Option Int
  | [] => none
  | a :: rest =>
    match listMax rest with
    | none => some a
    | some m => some (max a m)

/-- `_sequential_strategy`: sort the triples by the anchor consumer's
order and add one control dependency per triple with the lookaheads of
`seqAheads`.  An empty triple list is the source's `IndexError` at
`x[0]`; an absent anchor order is the `TypeError` of Python's `sorted`
comparison. -/
def sequentialStrategy (g : Graph) (t : TopoIndex) (triples : List Triple) :
    Except String Graph := do
  if triples.any (fun tr => (getOrder t tr.2.1).isNone) then
    .error "TypeError: absent order is not comparable"
  else
    let ordOf : Triple → Int := fun tr => (getOrder t tr.2.1).getD 0
    let x := sortByKey ordOf triples
    match x with
    | [] => .error "IndexError: list index out of range"
    | _ :: _ =>
      (seqAheads ordOf x).foldlM
        (fun acc p => addControlDependency acc t p.1.1 p.1.2.1 p.1.2.2 p.2) g

/-- `_add_control_dependencies`: auto (negative) `swapin_ahead` uses the
sequential strategy, otherwise every triple gets the user lookahead. -/
def addControlDependencies (g : Graph) (t : TopoIndex)
    (triples : List Triple) (swapinAhead : Int) : Except String Graph :=
  if swapinAhead < 0 then sequentialStrategy g t triples
  else triples.foldlM
    (fun acc tr => addControlDependency acc t tr.1 tr.2.1 tr.2.2 swapinAhead) g

/-- The per-consumer body of `_sync_ops` in modes 1/3: each swap-in in
the consumer's fan-in receives the rest of that fan-in as control
inputs (`_add_controls(x_sins, fs)` with the unguarded primitive). -/
def sinsControls (swapinOps : List Nat) (acc : Graph) (x : Nat) : Graph :=
  let xSins := (dedup (fanins acc x)).filter
    (fun o => swapinOps.contains o)
  let fs := (dedup (fanins acc x)).filter
    (fun o => !(swapinOps.contains o))
  xSins.foldl (fun a op1 => geAddControlInputList a op1 fs) acc

/-- The per-producer body of `_sync_ops` in modes 2/3: each non-swap-out
fan-out of the producer receives the producer's swap-outs as control
inputs (`_add_controls(fs, x_souts)`). -/
def soutsControls (swapoutOps : List Nat) (acc : Graph) (x : Nat) : Graph :=
  let xSouts := (dedup (fanouts acc x)).filter
    (fun o => swapoutOps.contains o)
  let fs := (dedup (fanouts acc x)).filter
    (fun o => !(swapoutOps.contains o))
  fs.foldl (fun a op1 => geAddControlInputList a op1 xSouts) acc

/-- `_sync_ops`: apply `sinsControls` to every distinct recorded
consumer in modes 1/3, then `soutsControls` to every distinct recorded
producer in modes 2/3. -/
def syncOps (g : Graph) (swapinOps swapoutOps : List Nat)
    (triples : List Triple) (syncMode : Int) : Graph :=
  let g1 :=
    if syncMode == 1 || syncMode == 3 then
      (dedup (triples.map (fun tr => tr.2.1))).foldl
        (sinsControls swapinOps) g
    else g
  if syncMode == 2 || syncMode == 3 then
    (dedup (triples.map (fun tr => tr.1))).foldl
      (soutsControls swapoutOps) g1
  else g1

/-- Python `name.replace("/", "_").replace(":", "_")` used to build the
names of inserted nodes. -/
def sanitize (s : String) : String :=
  ⟨s.data.map (fun c => if c = '/' ∨ c = ':' then '_' else c)⟩

/-- Apply an update to the tensor with id `tid`, wherever it occurs. -/
def updTensor (g : Graph) (tid : Nat) (f : Tensor → Tensor) : Graph :=
  { nodes := g.nodes.map (fun n =>
      { n with outputs := n.outputs.map (fun ts =>
          if ts.tid = tid then f ts else ts) }) }

/-- Apply an update to the node with id `i`. -/
def updNode (g : Graph) (i : Nat) (f : Node → Node) : Graph :=
  { nodes := g.nodes.map (fun n => if n.nid = i then f n else n) }

/-- Append a newly created node to the graph. -/
def addNode (g : Graph) (n : Node) : Graph := { nodes := g.nodes ++ [n] }

/-- Id of the first output tensor of node `i` (inserted swap nodes have
exactly one output; the default is never reached on them). -/
def firstOutTid (g : Graph) (i : Nat) : Nat :=
  match findNode g i with
  | none => 0
  | some n => match n.outputs with
    | [] => 0
    | o :: _ => o.tid

/-- The engine's per-run state: the graph, the topological index, the
resolved thresholds, the classification sets, the created-op sets and
the relocation triples, plus fresh-id counters and `sourced`, the ops on
which `_insert_swap_nodes` was invoked (the ops the source logs on entry
— recorded so that claims about "selected as a relocation source" can be
stated). -/
structure LMSState where
  graph : Graph
  topo : TopoIndex
  swapoutThreshold : Int
  swapinGroupby : Int
  exclOps : List Nat
  inclOps : List Nat
  swapoutOps : List Nat
  swapinOps : List Nat
  opsTriples : List Triple
  freshNid : Nat
  freshTid : Nat
  sourced : List Nat
deriving Repr, DecidableEq

/-- `_add_swapout(src_op, ts0)`: create the swap-out identity node
reading `ts0` (so `ts0` now also feeds it) with a fresh output tensor of
the same shape. -/
def addSwapout (s : LMSState) (ts : Tensor) : LMSState × Nat :=
  let soId := s.freshNid
  let so : Node :=
    { nid := soId, nname := "lms/swapout_" ++ sanitize ts.tname,
      nty := "Identity",
      outputs := [{ tid := s.freshTid,
                    tname := "lms/swapout_" ++ sanitize ts.tname ++ ":0",
                    ndims := ts.ndims, consumers := [] }],
      inputTids := [ts.tid], ctrlIns := [] }
  let g1 := updTensor (addNode s.graph so) ts.tid
    (fun t0 => { t0 with consumers := t0.consumers ++ [soId] })
  ({ s with graph := g1, freshNid := soId + 1, freshTid := s.freshTid + 1 },
   soId)

/-- `_add_swapin(swapout_op, dest_ops, ts0)`: create the swap-in
identity node reading the swap-out's output, and rewire every consumer
in `destOps` to read the swap-in's fresh output instead of `ts0`. -/
def addSwapin (s : LMSState) (swapoutOp : Nat) (destOps : List Nat)
    (ts : Tensor) : LMSState × Nat :=
  let sinId := s.freshNid
  let tsoTid := firstOutTid s.graph swapoutOp
  let sin : Node :=
    { nid := sinId, nname := "lms/swapin_" ++ sanitize ts.tname,
      nty := "Identity",
      outputs := [{ tid := s.freshTid,
                    tname := "lms/swapin_" ++ sanitize ts.tname ++ ":0",
                    ndims := ts.ndims, consumers := destOps }],
      inputTids := [tsoTid], ctrlIns := [] }
  let g1 := updTensor (addNode s.graph sin) tsoTid
    (fun t0 => { t0 with consumers := t0.consumers ++ [sinId] })
  let g2 := destOps.foldl
    (fun acc d => updNode acc d (fun n =>
      { n with inputTids := n.inputTids.map (fun x =>
          if x = ts.tid then s.freshTid else x) }))
    g1
  let g3 := updTensor g2 ts.tid
    (fun t0 => { t0 with consumers :=
        t0.consumers.filter (fun c => !(destOps.contains c)) })
  ({ s with graph := g3, freshNid := sinId + 1, freshTid := s.freshTid + 1 },
   sinId)

/-- One consumer band's processing inside `_insert_swap_nodes_for_ts`:
create the swap-in and record the band's anchor — its earliest-order
member (first in the band's order on a tie).  Band members' orders are
always present by the time this runs, so the `getD`/default branches
are never reached. -/
def forTsStep (soId : Nat) (ts : Tensor)
    (acc : LMSState × List (Nat × Nat)) (destOps : List Nat) :
    LMSState × List (Nat × Nat) :=
  let s3 := (addSwapin acc.1 soId destOps ts).1
  let sinId := (addSwapin acc.1 soId destOps ts).2
  let opsOrds := destOps.map
    (fun op => (op, (getOrder s3.topo op).getD 0))
  let xmin := match sortByKey id (opsOrds.map (·.2)) with
    | [] => 0
    | r :: _ => r
  let destOp := match (opsOrds.filter (fun p => p.2 = xmin)).map (·.1) with
    | [] => 0
    | d :: _ => d
  (s3, acc.2 ++ [(destOp, sinId)])

/-- `_insert_swap_nodes_for_ts(src_op, ts, targets)`: one swap-out with
a producer → swap-out control edge, then one swap-in per consumer band
via `forTsStep`. -/
def insertSwapNodesForTs (s : LMSState) (srcOp : Nat) (ts : Tensor)
    (targets : List (List Nat)) : LMSState × Nat × List (Nat × Nat) :=
  let s1 := (addSwapout s ts).1
  let soId := (addSwapout s ts).2
  let s2 := { s1 with graph := (addControlInputs s1.graph soId srcOp).2 }
  let res := targets.foldl (forTsStep soId ts) (s2, [])
  (res.1, soId, res.2)

/-- The distance filter of `_insert_swap_nodes`: the consumers whose
order minus the producer's order exceeds the threshold, in consumer
order; an absent order on either side of the subtraction is the
`TypeError` Python would raise (evaluated per consumer, head first, so
no consumer means no failure). -/
def candFilter (t : TopoIndex) (srcOrd : Option Int) (threshold : Int) :
    List Nat → Except String (List Nat)
  | [] => .ok []
  | c :: cs =>
    match getOrder t c, srcOrd with
    | some o, some so =>
      (candFilter t srcOrd threshold cs).map
        (fun l => if threshold < o - so then c :: l else l)
    | _, _ => .error "TypeError: absent order in distance computation"

/-- The candidate-selection stage of `_insert_swap_nodes`: for each
output tensor (in order) keep it with its distant consumers, skipping
tensors of unknown or ≤ 1 shape rank and tensors with no distant
consumer. -/
def selectTsDests (t : TopoIndex) (srcOrd : Option Int) (threshold : Int) :
    List Tensor → Except String (List (Tensor × List Nat))
  | [] => .ok []
  | ts :: rest =>
    match ts.ndims with
    | none => selectTsDests t srcOrd threshold rest
    | some nd =>
      if nd ≤ 1 then selectTsDests t srcOrd threshold rest
      else do
        let cands ← candFilter t srcOrd threshold ts.consumers
        let acc ← selectTsDests t srcOrd threshold rest
        if cands.isEmpty then pure acc else pure ((ts, cands) :: acc)

/-- The distant-consumer list as a pure function: what the source's
candidate comprehension yields when every consumer has a rank. -/
def distantConsumers (t : TopoIndex) (po θ : Int) (ts : Tensor) : List Nat :=
  ts.consumers.filter (fun c =>
    match getOrder t c with
    | some o => decide (θ < o - po)
    | none => false)

/-- The per-tensor result of the selection stage, as a pure function:
`none` when the tensor fails the shape filter or has no distant
consumer, otherwise the tensor with its distant consumers. -/
def tsSelector (t : TopoIndex) (po θ : Int) (ts : Tensor) :
    Option (Tensor × List Nat) :=
  match ts.ndims with
  | none => none
  | some nd =>
    if nd ≤ 1 then none
    else
      if (distantConsumers t po θ ts).isEmpty then none
      else some (ts, distantConsumers t po θ ts)

/-- The output tensors of a node (empty for an absent id). -/
def nodeOutputs (g : Graph) (i : Nat) : List Tensor :=
  match findNode g i with
  | none => []
  | some n => n.outputs

/-- The bookkeeping of one created swap-in: record it as a swap-in op,
exclude it, and append the relocation triple. -/
def recordSin (srcOp : Nat) (st : LMSState) (ds : Nat × Nat) : LMSState :=
  { st with
    swapinOps := st.swapinOps ++ [ds.2],
    exclOps := st.exclOps ++ [ds.2],
    opsTriples := st.opsTriples ++ [(srcOp, ds.1, ds.2)] }

/-- One selected tensor's insertion inside `_insert_swap_nodes`: group
the distant consumers, insert the swap nodes, and record the new ops as
excluded together with their relocation triples. -/
def insertStep (srcOp : Nat) (acc : LMSState)
    (tsCands : Tensor × List Nat) : Except String LMSState :=
  match groupby (tsCands.2.map
      (fun op => (op, (getOrder acc.topo op).getD 0))) acc.swapinGroupby with
  | none => .error "IndexError: list index out of range"
  | some destsGrp =>
    let res := insertSwapNodesForTs acc srcOp tsCands.1 destsGrp
    let s2 := { res.1 with
      swapoutOps := res.1.swapoutOps ++ [res.2.1],
      exclOps := res.1.exclOps ++ [res.2.1] }
    pure (res.2.2.foldl (recordSin srcOp) s2)

/-- `_insert_swap_nodes(src_op)`: select candidate tensors, then run
`insertStep` for each.  `sourced` records the invocation itself. -/
def insertSwapNodes (s : LMSState) (srcOp : Nat) : Except String LMSState := do
  let s := { s with sourced := s.sourced ++ [srcOp] }
  let outputs := nodeOutputs s.graph srcOp
  let srcOpOrder := getOrder s.topo srcOp
  let tsDests ← selectTsDests s.topo srcOpOrder s.swapoutThreshold outputs
  if tsDests.isEmpty then
    pure s
  else
    tsDests.foldlM (insertStep srcOp) s

/-- The enqueue loop of `_do_action`: append each discovered successor
unless it is closed or already queued. -/
def enqueue (closed : List Nat) (nextOps rest : List Nat) : List Nat :=
  nextOps.foldl
    (fun q op =>
      if closed.contains op then q
      else if q.contains op then q else q ++ [op])
    rest

/-- The skip-or-insert decision of `_do_action` for one dequeued op:
excluded ops, rank-absent ops and (under an active inclusion filter)
non-included ops are skipped. -/
def doActionBody (s : LMSState) (srcOp : Nat) : Except String LMSState :=
  if s.exclOps.contains srcOp then pure s
  else if (getOrder s.topo srcOp).isNone then pure s
  else if !s.inclOps.isEmpty then
    if s.inclOps.contains srcOp then insertSwapNodes s srcOp else pure s
  else insertSwapNodes s srcOp

/-- The loop body of `_do_action`: dequeue, snapshot the fan-out, skip
or insert, then enqueue unseen successors and close the dequeued op. -/
def doActionLoop (s : LMSState) : Nat → List Nat → List Nat →
    Except String LMSState
  | 0, _, _ => .error "fuel exhausted"
  | _ + 1, [], _ => pure s
  | fuel + 1, srcOp :: rest, closed => do
    let nextOps := dedup (fanouts s.graph srcOp)
    let s' ← doActionBody s srcOp
    doActionLoop s' fuel (enqueue closed nextOps rest) (closed ++ [srcOp])

/-- `_do_action(src_ops)`: breadth-first traversal from all original
ops with an initially empty closed set. -/
def doAction (fuel : Nat) (s : LMSState) (srcOps : List Nat) :
    Except String LMSState :=
  doActionLoop s fuel srcOps []

/-- The user-facing configuration of `LMS.__init__`. -/
structure Config where
  exclScopes : List String
  inclScopes : List String
  exclTypes : List String
  inclTypes : List String
  swapoutThreshold : Int
  swapinGroupby : Int
  swapinAhead : Int
  syncMode : Int
deriving Repr, DecidableEq

/-- `LMS.__init__`: reject a sync mode outside `{0,1,2,3}`, and union
the built-in `_unused_types` seed into the excluded-type filter. -/
def initLMS (cfg : Config) : Except String Config :=
  if cfg.syncMode = 0 ∨ cfg.syncMode = 1 ∨ cfg.syncMode = 2 ∨ cfg.syncMode = 3
  then .ok { cfg with exclTypes := cfg.exclTypes ++ unusedTypes }
  else .error "ValueError: Invalid value for sync_mode"

/-- Largest node id present in a graph (fresh ids start above it). -/
def maxNid (g : Graph) : Nat := g.nodes.foldl (fun m n => max m n.nid) 0

/-- Largest tensor id present in a graph. -/
def maxTid (g : Graph) : Nat :=
  g.nodes.foldl (fun m n => n.outputs.foldl (fun m2 t => max m2 t.tid) m) 0

/-- Fuel bound for the traversal: every op is dequeued at most once per
queue entry and entries are bounded by nodes plus edges, both before
and after insertion (generous by construction). -/
def runFuel (g : Graph) : Nat :=
  (g.nodes.length + 1) * (g.nodes.length + edgeCount g + 10) * 4

/-- `LMS.run` (composed with `__init__`): validate the configuration,
classify, build the order, resolve the auto threshold (half the number
of rank levels), insert swap nodes along the traversal, then schedule —
`_add_control_dependencies` in mode 0, `_sync_ops` otherwise. -/
def runLMS (cfg : Config) (graph : Option Graph) : Except String LMSState := do
  let cfg ← initLMS cfg
  match graph with
  | none => .error "ValueError: The dataflow graph is required"
  | some g => do
    let allOps := g.nodes
    let topo := topoBuild g
    let threshold : Int :=
      if cfg.swapoutThreshold < 0 then (topo.size : Int) / 2
      else cfg.swapoutThreshold
    let s0 : LMSState :=
      { graph := g, topo := topo, swapoutThreshold := threshold,
        swapinGroupby := cfg.swapinGroupby,
        exclOps := filterScopesAndTypes allOps cfg.exclScopes cfg.exclTypes,
        inclOps := filterScopesAndTypes allOps cfg.inclScopes cfg.inclTypes,
        swapoutOps := [], swapinOps := [], opsTriples := [],
        freshNid := maxNid g + 1, freshTid := maxTid g + 1, sourced := [] }
    let s1 ← doAction (runFuel g) s0 (allOps.map (·.nid))
    if cfg.syncMode = 0 then do
      let g2 ← addControlDependencies s1.graph s1.topo s1.opsTriples
        cfg.swapinAhead
      pure { s1 with graph := g2 }
    else
      pure { s1 with graph := syncOps s1.graph s1.swapinOps s1.swapoutOps
                                s1.opsTriples cfg.syncMode }

/-! ## Concrete scenarios used by the claim theorems -/

/-- Shorthand for a tensor literal. -/
def tMk (tid : Nat) (nm : String) (nd : Option Nat) (cs : List Nat) : Tensor :=
  { tid := tid, tname := nm, ndims := nd, consumers := cs }

/-- The default configuration: empty filters, auto thresholds, async. -/
def cfgDefault : Config :=
  { exclScopes := [], inclScopes := [], exclTypes := [], inclTypes := [],
    swapoutThreshold := -1, swapinGroupby := 5, swapinAhead := -1,
    syncMode := 0 }

/-- A valid one-op graph on which no tensor is ever relocated. -/
def graphSingle : Graph :=
  { nodes := [{ nid := 0, nname := "n0", nty := "MatMul", outputs := [],
                inputTids := [], ctrlIns := [] }] }

/-- A graph whose only relocation source is a node of type
`AssignSubVariableOp`: it produces a rank-2 tensor consumed 4 ranks
later (via a parallel chain raising the consumer's rank). -/
def graphAssign : Graph :=
  { nodes :=
    [ { nid := 0, nname := "v/assignsub", nty := "AssignSubVariableOp",
        outputs := [tMk 0 "t0" (some 2) [5]], inputTids := [], ctrlIns := [] },
      { nid := 1, nname := "c1", nty := "MatMul",
        outputs := [tMk 1 "t1" (some 1) [2]], inputTids := [], ctrlIns := [] },
      { nid := 2, nname := "c2", nty := "MatMul",
        outputs := [tMk 2 "t2" (some 1) [3]], inputTids := [1], ctrlIns := [] },
      { nid := 3, nname := "c3", nty := "MatMul",
        outputs := [tMk 3 "t3" (some 1) [4]], inputTids := [2], ctrlIns := [] },
      { nid := 4, nname := "c4", nty := "MatMul",
        outputs := [tMk 4 "t4" (some 1) [5]], inputTids := [3], ctrlIns := [] },
      { nid := 5, nname := "n5", nty := "MatMul", outputs := [],
        inputTids := [0, 4], ctrlIns := [] } ] }

/-- Explicit threshold 3 and user lookahead 0 for `graphAssign`. -/
def cfgAssign : Config :=
  { cfgDefault with swapoutThreshold := 3, swapinAhead := 0 }

/-- Anchor orders for the C3 counterexample: consumers 1, 2, 3 at ranks
0, 10, 11. -/
def topoSeq : TopoIndex := { ranks := [(1, 0), (2, 10), (3, 11)], size := 12 }

/-- The anchor-order key `_sequential_strategy` sorts by, over
`topoSeq`. -/
def ordSeq : Triple → Int := fun tr => (getOrder topoSeq tr.2.1).getD 0

/-- Three relocation triples with anchor consumers 1, 2, 3, already
sorted by anchor rank. -/
def triplesSeq : List Triple := [(100, 1, 200), (101, 2, 201), (102, 3, 202)]

/-- `nondecreasing l`: each element is ≤ its successor (the claimed
monotonicity of the sequential-strategy lookaheads). -/
def nondecreasing : List Int → Bool
  | [] => true
  | a :: rest =>
    match rest with
    | [] => true
    | b :: _ => decide (a ≤ b) && nondecreasing rest

/-- Post-insertion graph for the C2 counterexample: consumer 2 reads
from swap-in 3 and from the original fan-in 1. -/
def graphSync : Graph :=
  { nodes :=
    [ { nid := 1, nname := "a", nty := "MatMul",
        outputs := [tMk 1 "t1" (some 2) [2]], inputTids := [], ctrlIns := [] },
      { nid := 3, nname := "lms/swapin_t0", nty := "Identity",
        outputs := [tMk 3 "t3" (some 2) [2]], inputTids := [], ctrlIns := [] },
      { nid := 2, nname := "d", nty := "MatMul", outputs := [],
        inputTids := [3, 1], ctrlIns := [] } ] }

/-- Ranks for the C6 witness: consumers 1, 2, 3, 4 at ranks 11, 12,
15, 20 (the spec's distance-filtering example, producer rank 10,
threshold 3). -/
def topoDist : TopoIndex :=
  { ranks := [(1, 11), (2, 12), (3, 15), (4, 20)], size := 21 }

/-- The rank-2 tensor of the distance-filtering example. -/
def tsW : Tensor := tMk 0 "t0" (some 2) [1, 2, 3, 4]

/-- A rank-2 tensor consumed by the unranked node 1 (C9 witness). -/
def tensorC9 : Tensor := tMk 0 "t0" (some 2) [1]

/-- Graph for the C9 witness: ranked producer 0, unranked consumer 1. -/
def graphC9 : Graph :=
  { nodes :=
    [ { nid := 0, nname := "p", nty := "MatMul", outputs := [tensorC9],
        inputTids := [], ctrlIns := [] },
      { nid := 1, nname := "c", nty := "MatMul", outputs := [],
        inputTids := [0], ctrlIns := [] } ] }

/-- An index that ranks only node 0, leaving consumer 1 unranked. -/
def topoC9 : TopoIndex := { ranks := [(0, 0)], size := 1 }

/-- Engine state for the C9 witness. -/
def stateC9 : LMSState :=
  { graph := graphC9, topo := topoC9, swapoutThreshold := 0,
    swapinGroupby := 5, exclOps := [], inclOps := [], swapoutOps := [],
    swapinOps := [], opsTriples := [], freshNid := 10, freshTid := 10,
    sourced := [] }

/-- The gap property of one open interval `[lo, hi]` with respect to the
full rank multiset `values`: any two covered values either are within
`limit` of each other or have another value strictly between them. -/
def intervalGapOK (values : List Int) (limit lo hi : Int) : Prop :=
  ∀ v w, v ∈ values → w ∈ values → lo ≤ v → v ≤ hi → lo ≤ w → w ≤ hi →
    v < w → (w - v ≤ limit ∨ ∃ u ∈ values, v < u ∧ u < w)

/-- The run invariant behind C8: every op ever recorded as a created
swap-out or swap-in is in the excluded set. -/
def createdExcluded (s : LMSState) : Prop :=
  ∀ n, n ∈ s.swapoutOps ++ s.swapinOps → n ∈ s.exclOps

/-- Engine state for the C8 witness: the created swap-out 7 is already
recorded and excluded. -/
def stateC8 : LMSState :=
  { stateC9 with exclOps := [7], swapoutOps := [7] }

/-- The Consumer Grouper example of C4: six consumers (ids 10–15) at
topological ranks `{1, 2, 10, 11, 12, 20}`. -/
def c4Example : List (Nat × Int) :=
  [(10, 1), (11, 2), (12, 10), (13, 11), (14, 12), (15, 20)]

/-- A graph already holding a two-node control cycle between 1 and 2
(used to witness that the guarded helper does not create new ones). -/
def graphCyc : Graph :=
  { nodes :=
    [ { nid := 1, nname := "u", nty := "MatMul", outputs := [],
        inputTids := [], ctrlIns := [2] },
      { nid := 2, nname := "v", nty := "MatMul", outputs := [],
        inputTids := [], ctrlIns := [1] } ] }

/-! ## Lemmas about the graph-editing primitives -/

theorem comp_pred_eq {p : Node → Bool} (f : Node → Node)
    (hf : ∀ n, p (f n) = p n) : (p ∘ f) = p :=
  funext fun n => hf n

theorem findNode_geAddControlInput (g : Graph) (a b i : Nat) :
    findNode (geAddControlInput g a b) i =
      (findNode g i).map (fun n =>
        if n.nid = a then { n with ctrlIns := n.ctrlIns ++ [b] } else n) := by
  unfold findNode geAddControlInput
  rw [List.find?_map,
    comp_pred_eq _ (fun n => by by_cases h : n.nid = a <;> simp [h])]

theorem ctrlInputs_geAddControlInput_ne (g : Graph) (a b i : Nat)
    (h : i ≠ a) :
    ctrlInputs (geAddControlInput g a b) i = ctrlInputs g i := by
  unfold ctrlInputs
  rw [findNode_geAddControlInput]
  cases hfn : findNode g i with
  | none => rfl
  | some n =>
    have hn : n.nid = i := by
      have := List.find?_some hfn
      simpa using this
    simp [Option.map, hn, h]

theorem ctrlInputs_geAddControlInput_self (g : Graph) (a b : Nat) :
    ctrlInputs (geAddControlInput g a b) a =
      ctrlInputs g a ++ (if (findNode g a).isSome then [b] else []) := by
  unfold ctrlInputs
  rw [findNode_geAddControlInput]
  cases hfn : findNode g a with
  | none => rfl
  | some n =>
    have hn : n.nid = a := by
      have := List.find?_some hfn
      simpa using this
    simp [Option.map, hn]

theorem outputs_geAddControlInput (g : Graph) (a b i : Nat) :
    (findNode (geAddControlInput g a b) i).map (fun n => n.outputs) =
      (findNode g i).map (fun n => n.outputs) := by
  rw [findNode_geAddControlInput]
  cases hfn : findNode g i with
  | none => rfl
  | some n => by_cases h : n.nid = a <;> simp [h]

theorem fanouts_geAddControlInput (g : Graph) (a b i : Nat) :
    fanouts (geAddControlInput g a b) i = fanouts g i := by
  unfold fanouts
  have h := outputs_geAddControlInput g a b i
  rw [findNode_geAddControlInput]
  cases hfn : findNode g i with
  | none => rfl
  | some n => by_cases hh : n.nid = a <;> simp [hh]

theorem producerOf_geAddControlInput (g : Graph) (a b t : Nat) :
    producerOf (geAddControlInput g a b) t = producerOf g t := by
  unfold producerOf geAddControlInput
  rw [List.find?_map,
    comp_pred_eq _ (fun n => by by_cases h : n.nid = a <;> simp [h])]
  cases hfn : List.find?
      (fun (n : Node) => n.outputs.any (fun ts => ts.tid = t)) g.nodes with
  | none => rfl
  | some n => by_cases h : n.nid = a <;> simp [h]

theorem fanins_geAddControlInput (g : Graph) (a b i : Nat) :
    fanins (geAddControlInput g a b) i = fanins g i := by
  unfold fanins
  rw [findNode_geAddControlInput]
  cases hfn : findNode g i with
  | none => rfl
  | some n =>
    by_cases h : n.nid = a <;> simp only [h, if_true, if_false, Option.map] <;>
      exact List.filterMap_congr (fun t _ => producerOf_geAddControlInput g a b t)

/-! ## Claim theorems -/

/-- C1: the claim says a valid run with every candidate set empty (so
no relocation triples) completes normally, including in the default
asynchronous mode with auto `swapin_ahead`.  It is false: with no
triples, `_sequential_strategy` evaluates `x[0]` on an empty sorted
list and raises `IndexError`, so `run` on `graphSingle` (a valid
configuration: graph provided, `sync_mode = 0 ∈ {0,1,2,3}`) fails. -/
theorem C1_run_errors_with_no_triples :
    runLMS cfgDefault (some graphSingle) =
      .error "IndexError: list index out of range" := by rfl

/-- C5: the claim says the built-in seed list excludes every
resource-variable assign/scatter/gather type, including
`AssignSubVariableOp` and `ResourceGather`, so such nodes are never
relocation sources.  It is false: the missing comma in the source
merges the two names into one bogus element, neither type is in the
seed list, and a run on `graphAssign` relocates the
`AssignSubVariableOp` node 0 (it is recorded as the source of the
relocation triple). -/
theorem C5_assign_type_not_excluded :
    "AssignSubVariableOp" ∉ unusedTypes ∧
    "ResourceGather" ∉ unusedTypes ∧
    "AssignSubVariableOpResourceGather" ∈ unusedTypes ∧
    (runLMS cfgAssign (some graphAssign)).toOption.map (fun s => s.opsTriples) =
      some [(0, 5, 7)] ∧
    (runLMS cfgAssign (some graphAssign)).toOption.map
        (fun s => s.sourced.contains 0) =
      some true := by decide

/-- C3 counterexample: on three triples already sorted by anchor rank
(ranks 0, 10, 11), the sequential strategy assigns lookaheads 3, 10, 1 —
the lookahead for the last distinct anchor rank drops from 10 to 1, so
the claimed non-decreasing behavior is false. -/
theorem C3_counterexample_lookahead_drops :
    nondecreasing (triplesSeq.map ordSeq) = true ∧
    (seqAheads ordSeq triplesSeq).map (fun p => (ordSeq p.1, p.2)) =
      [(0, 3), (10, 10), (11, 1)] ∧
    nondecreasing ((seqAheads ordSeq triplesSeq).map (fun p => p.2)) = false :=
  by decide

/-- C2 counterexample: in synchronous mode 1 with the recorded triple
`(0, 2, 3)` and swap-in set `{3}`, consumer 2's remaining original
fan-in is `{1}`; the claim says node 1 receives a control edge making
it wait on move-in 3, but the code adds the reverse edge: afterwards
node 1 has no control inputs and the move-in 3 waits on node 1. -/
theorem C2_counterexample_mode1_direction :
    fanins graphSync 2 = [3, 1] ∧
    (3 ∈ ctrlInputs (syncOps graphSync [3] [] [(0, 2, 3)] 1) 1 → False) ∧
    ctrlInputs (syncOps graphSync [3] [] [(0, 2, 3)] 1) 3 = [1] := by decide

/-- C4 counterexample: with two consumers sharing rank 5 and
`limit = -1`, `_groupby` returns the same band twice, so both
consumers are duplicated across bands — the claimed
"no consumer duplicated" fails for this (non-empty) input and limit. -/
theorem C4_counterexample_negative_limit :
    groupby [(0, 5), (1, 5)] (-1) = some [[0, 1], [0, 1]] ∧
    ((fun bs => (bs.countP (fun b => 0 ∈ b)) = 2)
      ([[0, 1], [0, 1]] : List (List Nat))) := by decide

/-- Equation lemma for `candFilter` at an unranked head consumer. -/
theorem candFilter_cons_none (t : TopoIndex) (po θ : Int) (c : Nat)
    (cs : List Nat) (hco : getOrder t c = none) :
    candFilter t (some po) θ (c :: cs) =
      .error "TypeError: absent order in distance computation" := by
  simp only [candFilter, hco]

/-- Equation lemma for `candFilter` at a ranked head consumer. -/
theorem candFilter_cons_some (t : TopoIndex) (po θ : Int) (c : Nat)
    (cs : List Nat) (o : Int) (hco : getOrder t c = some o) :
    candFilter t (some po) θ (c :: cs) =
      (candFilter t (some po) θ cs).map
        (fun l => if θ < o - po then c :: l else l) := by
  simp only [candFilter, hco]

/-- Helper: successful `candFilter` means every consumer is ranked and
the result is the pure distant-consumer filter. -/
theorem candFilter_ok_elim (t : TopoIndex) (po θ : Int) (cs l : List Nat)
    (h : candFilter t (some po) θ cs = .ok l) :
    (∀ c ∈ cs, (getOrder t c).isSome) ∧
      l = cs.filter (fun c =>
        match getOrder t c with
        | some o => decide (θ < o - po)
        | none => false) := by
  induction cs generalizing l with
  | nil =>
    refine ⟨by simp, ?_⟩
    simpa [candFilter] using h.symm
  | cons c cs ih =>
    cases hco : getOrder t c with
    | none =>
      rw [candFilter_cons_none t po θ c cs hco] at h
      exact absurd h (by simp)
    | some o =>
      rw [candFilter_cons_some t po θ c cs o hco] at h
      cases hrec : candFilter t (some po) θ cs with
      | error e => rw [hrec] at h; exact absurd h (by simp [Except.map])
      | ok l0 =>
        rw [hrec] at h
        simp only [Except.map, Except.ok.injEq] at h
        obtain ⟨h1, h2⟩ := ih l0 hrec
        refine ⟨?_, ?_⟩
        · intro x hx
          rcases List.mem_cons.mp hx with hx | hx
          · subst hx; simp [hco]
          · exact h1 x hx
        · rw [← h, h2, List.filter_cons]
          by_cases hθ : θ < o - po <;> simp [hco, hθ]

/-- Helper: a consumer with an absent rank makes `candFilter` raise. -/
theorem candFilter_error_of_unranked (t : TopoIndex) (po θ : Int)
    (cs : List Nat) (h : ∃ c ∈ cs, getOrder t c = none) :
    candFilter t (some po) θ cs =
      .error "TypeError: absent order in distance computation" := by
  induction cs with
  | nil => simp at h
  | cons c cs ih =>
    cases hco : getOrder t c with
    | none => exact candFilter_cons_none t po θ c cs hco
    | some o =>
      rw [candFilter_cons_some t po θ c cs o hco]
      obtain ⟨x, hx, hxo⟩ := h
      rcases List.mem_cons.mp hx with hx | hx
      · subst hx; rw [hco] at hxo; cases hxo
      · rw [ih ⟨x, hx, hxo⟩]
        rfl

/-- Helper: when every consumer is ranked, `candFilter` succeeds with
the pure filter. -/
theorem candFilter_ok_of_ranked (t : TopoIndex) (po θ : Int)
    (cs : List Nat) (h : ∀ c ∈ cs, (getOrder t c).isSome) :
    candFilter t (some po) θ cs =
      .ok (cs.filter (fun c =>
        match getOrder t c with
        | some o => decide (θ < o - po)
        | none => false)) := by
  induction cs with
  | nil => rfl
  | cons c cs ih =>
    cases hco : getOrder t c with
    | none =>
      have := h c (by simp)
      rw [hco] at this; simp at this
    | some o =>
      rw [candFilter_cons_some t po θ c cs o hco,
        ih (fun x hx => h x (List.mem_cons_of_mem _ hx))]
      rw [List.filter_cons]
      by_cases hθ : θ < o - po <;> simp [hco, hθ, Except.map]

theorem except_bind_ok {α β : Type} (a : α) (f : α → Except String β) :
    (Except.ok a >>= f) = f a := rfl

theorem except_bind_error {α β : Type} (e : String)
    (f : α → Except String β) :
    ((Except.error e : Except String α) >>= f) = .error e := rfl

/-- Equation lemma for `selectTsDests` at an unknown-shape tensor. -/
theorem selectTsDests_cons_none (t : TopoIndex) (po θ : Int) (ts : Tensor)
    (rest : List Tensor) (hnd : ts.ndims = none) :
    selectTsDests t (some po) θ (ts :: rest) =
      selectTsDests t (some po) θ rest := by
  simp only [selectTsDests, hnd]

/-- Equation lemma for `selectTsDests` at a low-rank tensor. -/
theorem selectTsDests_cons_small (t : TopoIndex) (po θ : Int) (ts : Tensor)
    (rest : List Tensor) (nd : Nat) (hnd : ts.ndims = some nd)
    (hle : nd ≤ 1) :
    selectTsDests t (some po) θ (ts :: rest) =
      selectTsDests t (some po) θ rest := by
  simp only [selectTsDests, hnd, if_pos hle]

/-- Equation lemma for `selectTsDests` at a tensor passing the shape
filter. -/
theorem selectTsDests_cons_big (t : TopoIndex) (po θ : Int) (ts : Tensor)
    (rest : List Tensor) (nd : Nat) (hnd : ts.ndims = some nd)
    (hle : ¬ nd ≤ 1) :
    selectTsDests t (some po) θ (ts :: rest) =
      (candFilter t (some po) θ ts.consumers) >>= (fun cands =>
        (selectTsDests t (some po) θ rest) >>= (fun acc =>
          if cands.isEmpty then pure acc else pure ((ts, cands) :: acc))) := by
  simp only [selectTsDests, hnd, if_neg hle]

/-- Helper: the value returned by a successful `selectTsDests` is the
pure per-tensor selection of the source's filters. -/
theorem selectTsDests_ok_elim (t : TopoIndex) (po θ : Int)
    (outs : List Tensor) (res : List (Tensor × List Nat))
    (h : selectTsDests t (some po) θ outs = .ok res) :
    res = outs.filterMap (tsSelector t po θ) := by
  unfold tsSelector
  induction outs generalizing res with
  | nil =>
    simpa [selectTsDests] using h.symm
  | cons ts rest ih =>
    cases hnd : ts.ndims with
    | none =>
      rw [selectTsDests_cons_none t po θ ts rest hnd] at h
      simpa [hnd, List.filterMap_cons] using ih res h
    | some nd =>
      by_cases hle : nd ≤ 1
      · rw [selectTsDests_cons_small t po θ ts rest nd hnd hle] at h
        simp only [List.filterMap_cons, hnd, if_pos hle]
        exact ih res h
      · rw [selectTsDests_cons_big t po θ ts rest nd hnd hle] at h
        cases hc : candFilter t (some po) θ ts.consumers with
        | error e =>
          rw [hc, except_bind_error] at h
          cases h
        | ok cands =>
          rw [hc, except_bind_ok] at h
          cases hrest : selectTsDests t (some po) θ rest with
          | error e =>
            rw [hrest, except_bind_error] at h
            cases h
          | ok acc =>
            rw [hrest, except_bind_ok] at h
            have hcv : cands = distantConsumers t po θ ts :=
              (candFilter_ok_elim t po θ ts.consumers cands hc).2
            have hav := ih acc hrest
            simp only [List.filterMap_cons, hnd, if_neg hle, ← hcv]
            by_cases he : cands.isEmpty
            · rw [if_pos he] at h ⊢
              rw [← hav]
              exact (Except.ok.inj h).symm
            · rw [if_neg he] at h ⊢
              rw [← hav]
              exact (Except.ok.inj h).symm

/-- Helper: membership in the pure distant-consumer list. -/
theorem mem_distantConsumers (t : TopoIndex) (po θ : Int) (ts : Tensor)
    (c : Nat) :
    c ∈ distantConsumers t po θ ts ↔
      c ∈ ts.consumers ∧ ∃ o, getOrder t c = some o ∧ θ < o - po := by
  unfold distantConsumers
  rw [List.mem_filter]
  constructor
  · rintro ⟨hm, hp⟩
    refine ⟨hm, ?_⟩
    cases hco : getOrder t c with
    | none => rw [hco] at hp; cases hp
    | some o =>
      rw [hco] at hp
      exact ⟨o, rfl, by simpa using hp⟩
  · rintro ⟨hm, o, ho, hθ⟩
    exact ⟨hm, by simp [ho, hθ]⟩

/-- Helper: what a successful `tsSelector` result contains. -/
theorem tsSelector_some_elim (t : TopoIndex) (po θ : Int) (a : Tensor)
    (p : Tensor × List Nat) (hfa : tsSelector t po θ a = some p) :
    p.1 = a ∧ p.2 = distantConsumers t po θ a ∧
      (∃ d, a.ndims = some d ∧ 1 < d) ∧
      ¬ (distantConsumers t po θ a).isEmpty = true := by
  unfold tsSelector at hfa
  cases hnd : a.ndims with
  | none => rw [hnd] at hfa; cases hfa
  | some nd =>
    simp only [hnd] at hfa
    by_cases hle : nd ≤ 1
    · rw [if_pos hle] at hfa; cases hfa
    · rw [if_neg hle] at hfa
      by_cases he : (distantConsumers t po θ a).isEmpty
      · rw [if_pos he] at hfa; cases hfa
      · rw [if_neg he] at hfa
        have hp := Option.some.inj hfa
        refine ⟨?_, ?_, ⟨nd, rfl, by omega⟩, he⟩
        · rw [← hp]
        · rw [← hp]

/-- Helper: a list with a member is not `isEmpty`. -/
theorem not_isEmpty_of_mem {α : Type} {l : List α} {x : α} (h : x ∈ l) :
    ¬ l.isEmpty = true := by
  cases l with
  | nil => cases h
  | cons a as => simp

/-- Helper: a non-`isEmpty` list has a member. -/
theorem exists_mem_of_not_isEmpty {α : Type} {l : List α}
    (h : ¬ l.isEmpty = true) : ∃ x, x ∈ l := by
  cases l with
  | nil => simp at h
  | cons a as => exact ⟨a, by simp⟩

/-- C6: for a producer with rank `po`, an output tensor is selected
with candidate set `C` iff its shape rank is known and strictly greater
than 1 and some consumer lies strictly more than `swapout_threshold`
ranks after the producer; and any recorded `C` is exactly the set of
consumers whose rank distance strictly exceeds the threshold. -/
theorem C6_shape_and_distance_selection (t : TopoIndex) (po θ : Int)
    (outputs : List Tensor) (res : List (Tensor × List Nat))
    (h : selectTsDests t (some po) θ outputs = .ok res) (ts : Tensor)
    (hts : ts ∈ outputs) :
    ((∃ C, (ts, C) ∈ res) ↔
      ((∃ d, ts.ndims = some d ∧ 1 < d) ∧
       ∃ c ∈ ts.consumers, ∃ o, getOrder t c = some o ∧ θ < o - po)) ∧
    (∀ C, (ts, C) ∈ res → ∀ c,
      (c ∈ C ↔ c ∈ ts.consumers ∧
        ∃ o, getOrder t c = some o ∧ θ < o - po)) := by
  have hres := selectTsDests_ok_elim t po θ outputs res h
  subst hres
  constructor
  · constructor
    · rintro ⟨C, hC⟩
      rcases List.mem_filterMap.mp hC with ⟨a, ha, hfa⟩
      obtain ⟨h1, h2, hsh, hne⟩ := tsSelector_some_elim t po θ a (ts, C) hfa
      simp only at h1 h2
      subst h1
      rcases exists_mem_of_not_isEmpty hne with ⟨c, hc⟩
      rcases (mem_distantConsumers t po θ ts c).mp hc with ⟨hcm, o, ho, hθ⟩
      exact ⟨hsh, c, hcm, o, ho, hθ⟩
    · rintro ⟨⟨d, hnd, hd⟩, c, hc, o, ho, hθ⟩
      refine ⟨distantConsumers t po θ ts, List.mem_filterMap.mpr ⟨ts, hts, ?_⟩⟩
      have hcm : c ∈ distantConsumers t po θ ts :=
        (mem_distantConsumers t po θ ts c).mpr ⟨hc, o, ho, hθ⟩
      unfold tsSelector
      simp only [hnd]
      rw [if_neg (by omega : ¬ d ≤ 1),
        if_neg (not_isEmpty_of_mem hcm)]
  · intro C hC c
    rcases List.mem_filterMap.mp hC with ⟨a, ha, hfa⟩
    obtain ⟨h1, h2, _, _⟩ := tsSelector_some_elim t po θ a (ts, C) hfa
    simp only at h1 h2
    subst h1
    rw [h2]
    exact mem_distantConsumers t po θ ts c

/-- Witness for C6 at the spec's example: producer rank 10, threshold
3, consumers at ranks 11, 12, 15, 20 — consumer 3 (rank 15) is in the
selected candidate set because its distance 5 exceeds 3. -/
theorem C6_witness :
    3 ∈ ([3, 4] : List Nat) ↔ 3 ∈ tsW.consumers ∧
      ∃ o, getOrder topoDist 3 = some o ∧ (3 : Int) < o - 10 :=
  ((C6_shape_and_distance_selection topoDist 10 3 [tsW] [(tsW, [3, 4])]
      (by rfl) tsW (by decide)).2 [3, 4] (by decide)) 3

theorem listMax_none_iff (l : List Int) : listMax l = none ↔ l = [] := by
  cases l with
  | nil => simp [listMax]
  | cons a rest =>
    simp only [listMax]
    cases listMax rest <;> simp

theorem listMax_some_elim (l : List Int) (m : Int) (h : listMax l = some m) :
    m ∈ l ∧ ∀ v ∈ l, v ≤ m := by
  induction l generalizing m with
  | nil => cases h
  | cons a rest ih =>
    simp only [listMax] at h
    cases hr : listMax rest with
    | none =>
      rw [hr] at h
      have hnil : rest = [] := (listMax_none_iff rest).mp hr
      have ham : a = m := Option.some.inj h
      subst ham
      subst hnil
      exact ⟨by simp, by simp⟩
    | some mr =>
      rw [hr] at h
      obtain ⟨hmr, hbr⟩ := ih mr hr
      have hm : max a mr = m := Option.some.inj h
      subst hm
      constructor
      · rcases max_choice a mr with hc | hc <;> rw [hc]
        · simp
        · exact List.mem_cons_of_mem _ hmr
      · intro v hv
        rcases List.mem_cons.mp hv with rfl | hv
        · exact le_max_left _ _
        · exact le_trans (hbr v hv) (le_max_right _ _)

theorem listMax_eq_some (l : List Int) (m : Int) (hm : m ∈ l)
    (hb : ∀ v ∈ l, v ≤ m) : listMax l = some m := by
  cases hl : listMax l with
  | none => rw [(listMax_none_iff l).mp hl] at hm; cases hm
  | some mr =>
    obtain ⟨hmr, hbr⟩ := listMax_some_elim l mr hl
    rw [le_antisymm (hbr m hm) (hb mr hmr)]

theorem dropWhile_cons_pred_false {α : Type} (p : α → Bool) (a : α)
    (rest : List α) :
    ∀ l : List α, l.dropWhile p = a :: rest → p a = false := by
  intro l
  induction l with
  | nil => intro h; cases h
  | cons x xs ih =>
    intro h
    rw [List.dropWhile_cons] at h
    by_cases hp : p x
    · rw [if_pos hp] at h; exact ih h
    · rw [if_neg hp] at h
      obtain ⟨rfl, -⟩ := List.cons.inj h
      simpa using hp

theorem seqStep_ne (ordOf : Triple → Int)
    (acc : List (Triple × Int) × Int × Int) (tr : Triple)
    (h : ordOf tr ≠ acc.2.2) :
    seqStep ordOf acc tr =
      (acc.1 ++ [(tr, ordOf tr - acc.2.2)], acc.2.2, ordOf tr) := by
  simp [seqStep, h]

theorem seqStep_eq (ordOf : Triple → Int)
    (acc : List (Triple × Int) × Int × Int) (tr : Triple)
    (h : ordOf tr = acc.2.2) :
    seqStep ordOf acc tr =
      (acc.1 ++ [(tr, ordOf tr - acc.2.1)], acc.2.1, acc.2.2) := by
  simp [seqStep, h]

/-- Invariant induction for the second loop of the sequential strategy:
every emitted lookahead equals the anchor order minus the largest
strictly-smaller anchor order. -/
theorem seqStep_fold_spec (ordOf : Triple → Int) (values : List Int) :
    ∀ (suf : List Triple) (acc : List (Triple × Int)) (lb last : Int),
      (∀ tr ∈ suf, ordOf tr ∈ values) →
      last ∈ values →
      suf.Pairwise (fun a b => ordOf a ≤ ordOf b) →
      (∀ tr ∈ suf, last ≤ ordOf tr) →
      (∀ v ∈ values, v ≤ last ∨ ∃ tr ∈ suf, v = ordOf tr) →
      (listMax (values.filter (fun v => v < last)) = some lb ∨
        (lb = last ∧ values.filter (fun v => v < last) = [] ∧
          ∀ tr ∈ suf, last < ordOf tr)) →
      ∀ p ∈ (suf.foldl (seqStep ordOf) (acc, lb, last)).1,
        p ∈ acc ∨
        ∃ m, listMax (values.filter (fun v => v < ordOf p.1)) = some m ∧
          p.2 = ordOf p.1 - m
  | [] => by
    intro acc lb last _ _ _ _ _ _ p hp
    exact Or.inl hp
  | tr :: suf => by
    intro acc lb last hvals hlast hsort hge hub hinv p hp
    rw [List.foldl_cons] at hp
    have hcurrv : ordOf tr ∈ values := hvals tr (List.mem_cons_self _ _)
    have hsuf_ge : ∀ a ∈ suf, ordOf tr ≤ ordOf a :=
      (List.pairwise_cons.mp hsort).1
    have hsort' := (List.pairwise_cons.mp hsort).2
    by_cases hne : ordOf tr ≠ last
    · -- the anchor order advances: lb becomes the previous distinct order
      have hlt : last < ordOf tr :=
        lt_of_le_of_ne (hge tr (List.mem_cons_self _ _)) (Ne.symm hne)
      rw [seqStep_ne ordOf (acc, lb, last) tr hne] at hp
      have hmax : listMax (values.filter (fun v => v < ordOf tr)) =
          some last := by
        apply listMax_eq_some
        · exact List.mem_filter.mpr ⟨hlast, by simpa using hlt⟩
        · intro v hv
          obtain ⟨hvv, hvl⟩ := List.mem_filter.mp hv
          have hvl : v < ordOf tr := by simpa using hvl
          rcases hub v hvv with hvle | ⟨tr2, htr2, rfl⟩
          · omega
          · rcases List.mem_cons.mp htr2 with rfl | htr2
            · omega
            · have := hsuf_ge tr2 htr2
              omega
      have := seqStep_fold_spec ordOf values suf
        (acc ++ [(tr, ordOf tr - last)]) last (ordOf tr)
        (fun a ha => hvals a (List.mem_cons_of_mem _ ha))
        hcurrv hsort' hsuf_ge
        (fun v hv => by
          rcases hub v hv with hvle | ⟨tr2, htr2, rfl⟩
          · exact Or.inl (by omega)
          · rcases List.mem_cons.mp htr2 with rfl | htr2
            · exact Or.inl le_rfl
            · exact Or.inr ⟨tr2, htr2, rfl⟩)
        (Or.inl hmax) p hp
      rcases this with hin | hok
      · rcases List.mem_append.mp hin with hin | hin
        · exact Or.inl hin
        · right
          have hp2 : p = (tr, ordOf tr - last) := by simpa using hin
          subst hp2
          exact ⟨last, hmax, rfl⟩
      · exact Or.inr hok
    · -- same anchor order as before: lb and the lookahead are unchanged
      push_neg at hne
      have hinvL : listMax (values.filter (fun v => v < last)) = some lb := by
        rcases hinv with h | ⟨-, -, hall⟩
        · exact h
        · exact absurd (hall tr (List.mem_cons_self _ _)) (by omega)
      rw [seqStep_eq ordOf (acc, lb, last) tr hne] at hp
      have hmax : listMax (values.filter (fun v => v < ordOf tr)) =
          some lb := by
        rw [hne]; exact hinvL
      have := seqStep_fold_spec ordOf values suf
        (acc ++ [(tr, ordOf tr - lb)]) lb last
        (fun a ha => hvals a (List.mem_cons_of_mem _ ha))
        hlast hsort'
        (fun a ha => hne ▸ hsuf_ge a ha)
        (fun v hv => by
          rcases hub v hv with hvle | ⟨tr2, htr2, rfl⟩
          · exact Or.inl hvle
          · rcases List.mem_cons.mp htr2 with rfl | htr2
            · exact Or.inl (le_of_eq hne)
            · exact Or.inr ⟨tr2, htr2, rfl⟩)
        (Or.inl hinvL) p hp
      rcases this with hin | hok
      · rcases List.mem_append.mp hin with hin | hin
        · exact Or.inl hin
        · right
          have hp2 : p = (tr, ordOf tr - lb) := by simpa using hin
          subst hp2
          exact ⟨lb, hmax, rfl⟩
      · exact Or.inr hok

/-- Unfolding `seqAheads` on a non-empty triple list. -/
theorem seqAheads_cons (ordOf : Triple → Int) (x0 : Triple)
    (xs : List Triple) :
    seqAheads ordOf (x0 :: xs) =
      ((x0 :: xs).takeWhile (fun tr => ordOf tr = ordOf x0)).map
          (fun tr => (tr, (3 : Int))) ++
        (((x0 :: xs).dropWhile (fun tr => ordOf tr = ordOf x0)).foldl
          (seqStep ordOf) ([], ordOf x0, ordOf x0)).1 := rfl

/-- C3 (amended): with the triples sorted by anchor order, the
sequential strategy gives the triples at the minimum anchor order the
fixed lookahead 3 (no strictly smaller anchor order exists), and every
other triple the lookahead `anchor order − previous distinct anchor
order` — strictly positive, but not necessarily non-decreasing. -/
theorem C3_amended_sequential_lookahead (ordOf : Triple → Int)
    (x : List Triple)
    (hsort : x.Pairwise (fun a b => ordOf a ≤ ordOf b)) :
    ∀ p ∈ seqAheads ordOf x,
      (listMax ((x.map ordOf).filter (fun v => v < ordOf p.1)) = none →
        p.2 = 3) ∧
      (∀ m,
        listMax ((x.map ordOf).filter (fun v => v < ordOf p.1)) = some m →
        p.2 = ordOf p.1 - m) := by
  cases x with
  | nil => intro p hp; cases hp
  | cons x0 xs =>
    intro p hp
    have hmin : ∀ tr ∈ x0 :: xs, ordOf x0 ≤ ordOf tr := by
      intro tr htr
      rcases List.mem_cons.mp htr with rfl | htr
      · exact le_rfl
      · exact (List.pairwise_cons.mp hsort).1 tr htr
    rw [seqAheads_cons] at hp
    rcases List.mem_append.mp hp with hp | hp
    · -- the leading minimum-order run: fixed lookahead 3
      obtain ⟨tr, htr, hptr⟩ := List.mem_map.mp hp
      have htrw := List.mem_takeWhile_imp htr
      have htr0 : ordOf tr = ordOf x0 := by simpa using htrw
      have htrm : tr ∈ x0 :: xs :=
        (List.takeWhile_sublist _).mem htr
      have hfil :
          ((x0 :: xs).map ordOf).filter (fun v => v < ordOf p.1) = [] := by
        rw [List.filter_eq_nil_iff]
        intro v hv
        obtain ⟨tr2, htr2, rfl⟩ := List.mem_map.mp hv
        have := hmin tr2 htr2
        rw [← hptr]
        simp only
        rw [htr0]
        simpa using by omega
      refine ⟨fun _ => by rw [← hptr], fun m hm => ?_⟩
      rw [hfil] at hm
      cases hm
    · -- the moving-lower-bound loop
      have hdrop :
          ∀ tr ∈ (x0 :: xs).dropWhile (fun tr => ordOf tr = ordOf x0),
            ordOf x0 < ordOf tr := by
        cases hrest : (x0 :: xs).dropWhile (fun tr => ordOf tr = ordOf x0) with
        | nil => intro tr htr; cases htr
        | cons r0 rest =>
          intro tr htr
          have hr0 : ordOf r0 ≠ ordOf x0 := by
            have := dropWhile_cons_pred_false _ r0 rest (x0 :: xs) hrest
            simpa using this
          have hr0m : r0 ∈ x0 :: xs := by
            have : r0 ∈ (x0 :: xs).dropWhile (fun tr => ordOf tr = ordOf x0) := by
              rw [hrest]; exact List.mem_cons_self _ _
            exact (List.dropWhile_sublist _).mem this
          have hr0lt : ordOf x0 < ordOf r0 :=
            lt_of_le_of_ne (hmin r0 hr0m) (Ne.symm hr0)
          have hsubpw : (r0 :: rest).Pairwise
              (fun a b => ordOf a ≤ ordOf b) := by
            rw [← hrest]
            exact List.Pairwise.sublist (List.dropWhile_sublist _) hsort
          rcases List.mem_cons.mp htr with rfl | htr
          · exact hr0lt
          · have := (List.pairwise_cons.mp hsubpw).1 tr htr
            omega
      have hfild :
          ((x0 :: xs).map ordOf).filter (fun v => v < ordOf x0) = [] := by
        rw [List.filter_eq_nil_iff]
        intro v hv
        obtain ⟨tr2, htr2, rfl⟩ := List.mem_map.mp hv
        have := hmin tr2 htr2
        simpa using by omega
      have := seqStep_fold_spec ordOf ((x0 :: xs).map ordOf)
        ((x0 :: xs).dropWhile (fun tr => ordOf tr = ordOf x0))
        [] (ordOf x0) (ordOf x0)
        (fun tr htr => List.mem_map.mpr
          ⟨tr, (List.dropWhile_sublist _).mem htr, rfl⟩)
        (List.mem_map.mpr ⟨x0, List.mem_cons_self _ _, rfl⟩)
        (List.Pairwise.sublist (List.dropWhile_sublist _) hsort)
        (fun tr htr => le_of_lt (hdrop tr htr))
        (fun v hv => by
          obtain ⟨tr2, htr2, rfl⟩ := List.mem_map.mp hv
          by_cases hc : ordOf tr2 = ordOf x0
          · exact Or.inl (le_of_eq hc)
          · right
            refine ⟨tr2, ?_, rfl⟩
            -- tr2 is not in the takeWhile prefix, so it is in the suffix
            rcases List.mem_append.mp (by
              rw [List.takeWhile_append_dropWhile
                (p := fun tr => ordOf tr = ordOf x0) (l := x0 :: xs)]
              exact htr2) with hin | hin
            · exact absurd (by simpa using List.mem_takeWhile_imp hin) hc
            · exact hin)
        (Or.inr ⟨rfl, hfild, hdrop⟩) p hp
      rcases this with hin | ⟨m, hm, hval⟩
      · cases hin
      · refine ⟨fun hnone => ?_, fun m2 hm2 => ?_⟩
        · rw [hm] at hnone; cases hnone
        · rw [hm] at hm2
          rw [hval, Option.some.inj hm2]

/-- Witness for C3 (amended) at the counterexample input: the triple
with anchor rank 10 gets lookahead `10 - 0 = 10`, the previous distinct
anchor rank being 0. -/
theorem C3_amended_witness :
    (10 : Int) = ordSeq (101, 2, 201) - 0 :=
  (C3_amended_sequential_lookahead ordSeq triplesSeq (by decide)
    ((101, 2, 201), 10) (by decide)).2 0 (by decide)

theorem insSorted_perm {α : Type} (key : α → Int) (a : α) (l : List α) :
    (insSorted key a l).Perm (a :: l) := by
  induction l with
  | nil => exact List.Perm.refl _
  | cons b bs ih =>
    unfold insSorted
    by_cases h : key a < key b
    · rw [if_pos h]
    · rw [if_neg h]
      exact (ih.cons b).trans (List.Perm.swap a b bs)

theorem sortByKey_perm {α : Type} (key : α → Int) (l : List α) :
    (sortByKey key l).Perm l := by
  suffices hgen : ∀ (l acc : List α),
      (l.foldl (fun acc a => insSorted key a acc) acc).Perm (acc ++ l) by
    simpa using hgen l []
  intro l
  induction l with
  | nil => intro acc; simp
  | cons a l ih =>
    intro acc
    rw [List.foldl_cons]
    refine (ih (insSorted key a acc)).trans ?_
    refine (List.Perm.append_right l (insSorted_perm key a acc)).trans ?_
    exact List.perm_middle.symm

theorem insSorted_pairwise {α : Type} (key : α → Int) (a : α) (l : List α)
    (h : l.Pairwise (fun x y => key x ≤ key y)) :
    (insSorted key a l).Pairwise (fun x y => key x ≤ key y) := by
  induction l with
  | nil => simp [insSorted]
  | cons b bs ih =>
    obtain ⟨hb, hbs⟩ := List.pairwise_cons.mp h
    unfold insSorted
    by_cases hlt : key a < key b
    · rw [if_pos hlt]
      refine List.pairwise_cons.mpr ⟨?_, h⟩
      intro x hx
      rcases List.mem_cons.mp hx with rfl | hx
      · omega
      · have := hb x hx
        omega
    · rw [if_neg hlt]
      refine List.pairwise_cons.mpr ⟨?_, ih hbs⟩
      intro x hx
      have hx2 := (insSorted_perm key a bs).mem_iff.mp hx
      rcases List.mem_cons.mp hx2 with rfl | hx2
      · omega
      · exact hb x hx2

theorem sortByKey_pairwise {α : Type} (key : α → Int) (l : List α) :
    (sortByKey key l).Pairwise (fun x y => key x ≤ key y) := by
  suffices hgen : ∀ (l acc : List α),
      acc.Pairwise (fun x y => key x ≤ key y) →
      (l.foldl (fun acc a => insSorted key a acc) acc).Pairwise
        (fun x y => key x ≤ key y) by
    exact hgen l [] (by simp)
  intro l
  induction l with
  | nil => intro acc h; simpa using h
  | cons a l ih =>
    intro acc h
    rw [List.foldl_cons]
    exact ih _ (insSorted_pairwise key a acc h)

/-- With distinct consumers, each consumer has a unique recorded rank. -/
theorem rank_unique (opsOrds : List (Nat × Int))
    (hnd : (opsOrds.map Prod.fst).Nodup) (op : Nat) (r1 r2 : Int)
    (h1 : (op, r1) ∈ opsOrds) (h2 : (op, r2) ∈ opsOrds) : r1 = r2 := by
  induction opsOrds with
  | nil => cases h1
  | cons p rest ih =>
    rw [List.map_cons, List.nodup_cons] at hnd
    rcases List.mem_cons.mp h1 with he1 | h1m
    · rcases List.mem_cons.mp h2 with he2 | h2m
      · rw [← he1] at he2
        exact (Prod.mk.inj he2).2.symm
      · exfalso
        apply hnd.1
        rw [← he1]
        exact List.mem_map.mpr ⟨(op, r2), h2m, rfl⟩
    · rcases List.mem_cons.mp h2 with he2 | h2m
      · exfalso
        apply hnd.1
        rw [← he2]
        exact List.mem_map.mpr ⟨(op, r1), h1m, rfl⟩
      · exact ih hnd.2 h1m h2m

theorem mergeRanks_cons_merge (limit lo hi r : Int) (rs : List Int)
    (h : r - hi ≤ limit) :
    mergeRanks limit lo hi (r :: rs) = mergeRanks limit lo r rs := by
  simp [mergeRanks, h]

theorem mergeRanks_cons_split (limit lo hi r : Int) (rs : List Int)
    (h : ¬ r - hi ≤ limit) :
    mergeRanks limit lo hi (r :: rs) =
      (lo, hi) :: mergeRanks limit r r rs := by
  simp [mergeRanks, h]

/-- Full invariant of the interval-merging loop of `_groupby`: the
result starts at `lo` and covers `hi`, intervals are well-formed,
ordered and separated by more than `limit`, every remaining rank is
covered, and every interval satisfies the gap property. -/
theorem mergeRanks_spec (limit : Int) (values : List Int)
    (hlim : 0 ≤ limit) :
    ∀ (rest : List Int) (lo hi : Int),
      lo ≤ hi →
      rest.Pairwise (· ≤ ·) →
      (∀ v ∈ rest, hi ≤ v) →
      lo ∈ values → hi ∈ values → (∀ v ∈ rest, v ∈ values) →
      intervalGapOK values limit lo hi →
      (∃ h1 tail, mergeRanks limit lo hi rest = (lo, h1) :: tail ∧
        hi ≤ h1) ∧
      (∀ y ∈ mergeRanks limit lo hi rest, y.1 ≤ y.2) ∧
      (∀ y ∈ mergeRanks limit lo hi rest, lo ≤ y.1) ∧
      (mergeRanks limit lo hi rest).Pairwise
        (fun y1 y2 => y1.2 + limit < y2.1) ∧
      (∀ v ∈ rest, ∃ y ∈ mergeRanks limit lo hi rest,
        y.1 ≤ v ∧ v ≤ y.2) ∧
      (∀ y ∈ mergeRanks limit lo hi rest,
        intervalGapOK values limit y.1 y.2)
  | [] => by
    intro lo hi hlohi _ _ hlov hhiv _ hgap
    refine ⟨⟨hi, [], rfl, le_refl hi⟩, ?_, ?_, ?_, ?_, ?_⟩
    · intro y hy
      rw [show mergeRanks limit lo hi [] = [(lo, hi)] from rfl] at hy
      rcases List.mem_cons.mp hy with rfl | hy
      · exact hlohi
      · cases hy
    · intro y hy
      rw [show mergeRanks limit lo hi [] = [(lo, hi)] from rfl] at hy
      rcases List.mem_cons.mp hy with rfl | hy
      · exact le_refl lo
      · cases hy
    · rw [show mergeRanks limit lo hi [] = [(lo, hi)] from rfl]
      simp
    · intro v hv; cases hv
    · intro y hy
      rw [show mergeRanks limit lo hi [] = [(lo, hi)] from rfl] at hy
      rcases List.mem_cons.mp hy with rfl | hy
      · exact hgap
      · cases hy
  | r :: rs => by
    intro lo hi hlohi hsort hge hlov hhiv hvv hgap
    have hhir : hi ≤ r := hge r (List.mem_cons_self _ _)
    have hsort' := (List.pairwise_cons.mp hsort).2
    have hge' := (List.pairwise_cons.mp hsort).1
    have hrv : r ∈ values := hvv r (List.mem_cons_self _ _)
    by_cases hm : r - hi ≤ limit
    · -- merge `r` into the open interval
      have hgap' : intervalGapOK values limit lo r := by
        intro v w hv hw hlov2 hvr hlow2 hwr hvw
        by_cases hwhi : w ≤ hi
        · exact hgap v w hv hw hlov2 (by omega) hlow2 hwhi hvw
        · by_cases hvhi : v < hi
          · exact Or.inr ⟨hi, hhiv, by omega, by omega⟩
          · exact Or.inl (by omega)
      have hrec := mergeRanks_spec limit values hlim rs lo r
        (by omega) hsort' hge' hlov hrv
        (fun v hv => hvv v (List.mem_cons_of_mem _ hv)) hgap'
      rw [mergeRanks_cons_merge limit lo hi r rs hm]
      obtain ⟨hA, hB, hF, hC, hD, hE⟩ := hrec
      refine ⟨?_, hB, hF, hC, ?_, hE⟩
      · obtain ⟨h1, tail, heq, hle⟩ := hA
        exact ⟨h1, tail, heq, by omega⟩
      · intro v hv
        rcases List.mem_cons.mp hv with rfl | hv
        · obtain ⟨h1, tail, heq, hle⟩ := hA
          refine ⟨(lo, h1), ?_, by omega, by omega⟩
          rw [heq]
          exact List.mem_cons_self _ _
        · exact hD v hv
    · -- close the interval and open a new one at `r`
      have hgapr : intervalGapOK values limit r r := by
        intro v w _ _ h1 h2 h3 h4 hvw
        omega
      have hrec := mergeRanks_spec limit values hlim rs r r
        (le_refl r) hsort' hge' hrv hrv
        (fun v hv => hvv v (List.mem_cons_of_mem _ hv)) hgapr
      rw [mergeRanks_cons_split limit lo hi r rs hm]
      obtain ⟨hA, hB, hF, hC, hD, hE⟩ := hrec
      refine ⟨⟨hi, _, rfl, le_refl hi⟩, ?_, ?_, ?_, ?_, ?_⟩
      · intro y hy
        rcases List.mem_cons.mp hy with rfl | hy
        · exact hlohi
        · exact hB y hy
      · intro y hy
        rcases List.mem_cons.mp hy with rfl | hy
        · exact le_refl lo
        · have := hF y hy
          omega
      · refine List.pairwise_cons.mpr ⟨?_, hC⟩
        intro y hy
        have := hF y hy
        simp only
        omega
      · intro v hv
        rcases List.mem_cons.mp hv with rfl | hv
        · obtain ⟨h1, tail, heq, hle⟩ := hA
          refine ⟨(v, h1), ?_, le_refl v, hle⟩
          rw [heq]
          exact List.mem_cons_of_mem _ (List.mem_cons_self _ _)
        · obtain ⟨y, hy, hcov⟩ := hD v hv
          exact ⟨y, List.mem_cons_of_mem _ hy, hcov⟩
      · intro y hy
        rcases List.mem_cons.mp hy with rfl | hy
        · exact hgap
        · exact hE y hy

theorem mem_dedup (l : List Nat) (x : Nat) : x ∈ dedup l ↔ x ∈ l := by
  suffices hgen : ∀ (l acc : List Nat),
      (x ∈ l.foldl
        (fun acc a => if acc.contains a then acc else acc ++ [a]) acc) ↔
      x ∈ acc ∨ x ∈ l by
    unfold dedup
    rw [hgen l []]
    simp
  intro l
  induction l with
  | nil => intro acc; simp
  | cons a l ih =>
    intro acc
    rw [List.foldl_cons]
    by_cases hc : acc.contains a
    · rw [if_pos hc, ih acc]
      constructor
      · rintro (h | h)
        · exact Or.inl h
        · exact Or.inr (List.mem_cons_of_mem _ h)
      · rintro (h | h)
        · exact Or.inl h
        · rcases List.mem_cons.mp h with rfl | h
          · exact Or.inl (List.elem_iff.mp hc)
          · exact Or.inr h
    · rw [if_neg hc, ih (acc ++ [a])]
      constructor
      · rintro (h | h)
        · rcases List.mem_append.mp h with h | h
          · exact Or.inl h
          · have hxa : x = a := by simpa using h
            exact Or.inr (List.mem_cons.mpr (Or.inl hxa))
        · exact Or.inr (List.mem_cons_of_mem _ h)
      · rintro (h | h)
        · exact Or.inl (List.mem_append_left _ h)
        · rcases List.mem_cons.mp h with rfl | h
          · exact Or.inl (List.mem_append_right _ (by simp))
          · exact Or.inr h

theorem ctrl_mem_mono_geAdd (g : Graph) (a b i x : Nat)
    (h : x ∈ ctrlInputs g i) :
    x ∈ ctrlInputs (geAddControlInput g a b) i := by
  by_cases hia : i = a
  · subst hia
    rw [ctrlInputs_geAddControlInput_self]
    exact List.mem_append_left _ h
  · rw [ctrlInputs_geAddControlInput_ne g a b i hia]
    exact h

theorem findNode_isSome_geAdd (g : Graph) (a b i : Nat) :
    (findNode (geAddControlInput g a b) i).isSome =
      (findNode g i).isSome := by
  rw [findNode_geAddControlInput]
  cases findNode g i <;> rfl

theorem geAdd_self_mem (g : Graph) (a b : Nat)
    (hs : (findNode g a).isSome = true) :
    b ∈ ctrlInputs (geAddControlInput g a b) a := by
  rw [ctrlInputs_geAddControlInput_self, if_pos hs]
  exact List.mem_append_right _ (by simp)

theorem ctrl_mem_mono_geAddList (l : List Nat) :
    ∀ (g : Graph) (a i x : Nat), x ∈ ctrlInputs g i →
      x ∈ ctrlInputs (geAddControlInputList g a l) i := by
  induction l with
  | nil => intro g a i x h; exact h
  | cons c cs ih =>
    intro g a i x h
    exact ih (geAddControlInput g a c) a i x (ctrl_mem_mono_geAdd g a c i x h)

theorem findNode_isSome_geAddList (l : List Nat) :
    ∀ (g : Graph) (a i : Nat),
      (findNode (geAddControlInputList g a l) i).isSome =
        (findNode g i).isSome := by
  induction l with
  | nil => intro g a i; rfl
  | cons c cs ih =>
    intro g a i
    rw [show geAddControlInputList g a (c :: cs) =
      geAddControlInputList (geAddControlInput g a c) a cs from rfl]
    rw [ih, findNode_isSome_geAdd]

theorem fanins_geAddList (l : List Nat) :
    ∀ (g : Graph) (a i : Nat),
      fanins (geAddControlInputList g a l) i = fanins g i := by
  induction l with
  | nil => intro g a i; rfl
  | cons c cs ih =>
    intro g a i
    rw [show geAddControlInputList g a (c :: cs) =
      geAddControlInputList (geAddControlInput g a c) a cs from rfl]
    rw [ih, fanins_geAddControlInput]

theorem fanouts_geAddList (l : List Nat) :
    ∀ (g : Graph) (a i : Nat),
      fanouts (geAddControlInputList g a l) i = fanouts g i := by
  induction l with
  | nil => intro g a i; rfl
  | cons c cs ih =>
    intro g a i
    rw [show geAddControlInputList g a (c :: cs) =
      geAddControlInputList (geAddControlInput g a c) a cs from rfl]
    rw [ih, fanouts_geAddControlInput]

theorem geAddControlInputList_mem (l : List Nat) :
    ∀ (g : Graph) (a b : Nat), (findNode g a).isSome = true → b ∈ l →
      b ∈ ctrlInputs (geAddControlInputList g a l) a := by
  induction l with
  | nil => intro g a b _ hb; cases hb
  | cons c cs ih =>
    intro g a b hs hb
    rw [show geAddControlInputList g a (c :: cs) =
      geAddControlInputList (geAddControlInput g a c) a cs from rfl]
    rcases List.mem_cons.mp hb with rfl | hb
    · exact ctrl_mem_mono_geAddList cs _ a a b (geAdd_self_mem g a b hs)
    · exact ih (geAddControlInput g a c) a b
        (by rw [findNode_isSome_geAdd]; exact hs) hb

/-- A fan-in of any node is itself a node of the graph. -/
theorem fanins_mem_isSome (g : Graph) (d s : Nat) (h : s ∈ fanins g d) :
    (findNode g s).isSome = true := by
  unfold fanins at h
  cases hfn : findNode g d with
  | none => rw [hfn] at h; cases h
  | some n =>
    rw [hfn] at h
    obtain ⟨t, _, hpt⟩ := List.mem_filterMap.mp h
    unfold producerOf at hpt
    cases hf2 : g.nodes.find?
        (fun n => n.outputs.any (fun ts => ts.tid = t)) with
    | none => rw [hf2] at hpt; cases hpt
    | some n2 =>
      rw [hf2] at hpt
      have hn2 : n2.nid = s := Option.some.inj hpt
      have hn2m : n2 ∈ g.nodes := List.mem_of_find?_eq_some hf2
      unfold findNode
      rw [List.find?_isSome]
      exact ⟨n2, hn2m, by simp [hn2]⟩

theorem innerFold_mono (fs : List Nat) (L : List Nat) :
    ∀ (acc : Graph) (i x : Nat), x ∈ ctrlInputs acc i →
      x ∈ ctrlInputs
        (L.foldl (fun a op1 => geAddControlInputList a op1 fs) acc) i := by
  induction L with
  | nil => intro acc i x h; exact h
  | cons c cs ih =>
    intro acc i x h
    exact ih _ i x (ctrl_mem_mono_geAddList fs acc c i x h)

theorem innerFold_isSome (fs : List Nat) (L : List Nat) :
    ∀ (acc : Graph) (i : Nat),
      (findNode
        (L.foldl (fun a op1 => geAddControlInputList a op1 fs) acc) i).isSome =
      (findNode acc i).isSome := by
  induction L with
  | nil => intro acc i; rfl
  | cons c cs ih =>
    intro acc i
    rw [List.foldl_cons, ih, findNode_isSome_geAddList]

theorem innerFold_fanins (fs : List Nat) (L : List Nat) :
    ∀ (acc : Graph) (i : Nat),
      fanins
        (L.foldl (fun a op1 => geAddControlInputList a op1 fs) acc) i =
      fanins acc i := by
  induction L with
  | nil => intro acc i; rfl
  | cons c cs ih =>
    intro acc i
    rw [List.foldl_cons, ih, fanins_geAddList]

theorem innerFold_fanouts (fs : List Nat) (L : List Nat) :
    ∀ (acc : Graph) (i : Nat),
      fanouts
        (L.foldl (fun a op1 => geAddControlInputList a op1 fs) acc) i =
      fanouts acc i := by
  induction L with
  | nil => intro acc i; rfl
  | cons c cs ih =>
    intro acc i
    rw [List.foldl_cons, ih, fanouts_geAddList]

theorem innerFold_adds (fs : List Nat) (L : List Nat) :
    ∀ (acc : Graph) (s f : Nat), s ∈ L →
      (findNode acc s).isSome = true → f ∈ fs →
      f ∈ ctrlInputs
        (L.foldl (fun a op1 => geAddControlInputList a op1 fs) acc) s := by
  induction L with
  | nil => intro acc s f hs _ _; cases hs
  | cons c cs ih =>
    intro acc s f hs hsome hf
    rw [List.foldl_cons]
    rcases List.mem_cons.mp hs with rfl | hs
    · exact innerFold_mono fs cs _ s f
        (geAddControlInputList_mem fs acc s f hsome hf)
    · exact ih _ s f hs
        (by rw [findNode_isSome_geAddList]; exact hsome) hf

theorem sinsControls_fanins (sw : List Nat) (acc : Graph) (x i : Nat) :
    fanins (sinsControls sw acc x) i = fanins acc i := by
  unfold sinsControls
  exact innerFold_fanins _ _ acc i

theorem sinsControls_fanouts (sw : List Nat) (acc : Graph) (x i : Nat) :
    fanouts (sinsControls sw acc x) i = fanouts acc i := by
  unfold sinsControls
  exact innerFold_fanouts _ _ acc i

theorem sinsControls_isSome (sw : List Nat) (acc : Graph) (x i : Nat) :
    (findNode (sinsControls sw acc x) i).isSome =
      (findNode acc i).isSome := by
  unfold sinsControls
  exact innerFold_isSome _ _ acc i

theorem sinsControls_mono (sw : List Nat) (acc : Graph) (x i v : Nat)
    (h : v ∈ ctrlInputs acc i) :
    v ∈ ctrlInputs (sinsControls sw acc x) i := by
  unfold sinsControls
  exact innerFold_mono _ _ acc i v h

theorem sinsControls_adds (sw : List Nat) (acc : Graph) (x s f : Nat)
    (hs : s ∈ fanins acc x) (hsw : s ∈ sw)
    (hf : f ∈ fanins acc x) (hfw : f ∉ sw) :
    f ∈ ctrlInputs (sinsControls sw acc x) s := by
  unfold sinsControls
  apply innerFold_adds
  · exact List.mem_filter.mpr
      ⟨(mem_dedup _ _).mpr hs, List.elem_iff.mpr hsw⟩
  · exact fanins_mem_isSome acc x s hs
  · exact List.mem_filter.mpr
      ⟨(mem_dedup _ _).mpr hf, by simp [List.elem_iff, hfw]⟩

theorem soutsControls_fanins (sw : List Nat) (acc : Graph) (x i : Nat) :
    fanins (soutsControls sw acc x) i = fanins acc i := by
  unfold soutsControls
  exact innerFold_fanins _ _ acc i

theorem soutsControls_fanouts (sw : List Nat) (acc : Graph) (x i : Nat) :
    fanouts (soutsControls sw acc x) i = fanouts acc i := by
  unfold soutsControls
  exact innerFold_fanouts _ _ acc i

theorem soutsControls_isSome (sw : List Nat) (acc : Graph) (x i : Nat) :
    (findNode (soutsControls sw acc x) i).isSome =
      (findNode acc i).isSome := by
  unfold soutsControls
  exact innerFold_isSome _ _ acc i

theorem soutsControls_mono (sw : List Nat) (acc : Graph) (x i v : Nat)
    (h : v ∈ ctrlInputs acc i) :
    v ∈ ctrlInputs (soutsControls sw acc x) i := by
  unfold soutsControls
  exact innerFold_mono _ _ acc i v h

theorem soutsControls_adds (sw : List Nat) (acc : Graph) (x so f : Nat)
    (hso : so ∈ fanouts acc x) (hsow : so ∈ sw)
    (hf : f ∈ fanouts acc x) (hfw : f ∉ sw)
    (hfs : (findNode acc f).isSome = true) :
    so ∈ ctrlInputs (soutsControls sw acc x) f := by
  unfold soutsControls
  apply innerFold_adds
  · exact List.mem_filter.mpr
      ⟨(mem_dedup _ _).mpr hf, by simp [List.elem_iff, hfw]⟩
  · exact hfs
  · exact List.mem_filter.mpr
      ⟨(mem_dedup _ _).mpr hso, List.elem_iff.mpr hsow⟩

theorem sinsFold_mono (sw : List Nat) (D : List Nat) :
    ∀ (acc : Graph) (i v : Nat), v ∈ ctrlInputs acc i →
      v ∈ ctrlInputs (D.foldl (sinsControls sw) acc) i := by
  induction D with
  | nil => intro acc i v h; exact h
  | cons d D ih =>
    intro acc i v h
    exact ih _ i v (sinsControls_mono sw acc d i v h)

theorem sinsFold_fanins (sw : List Nat) (D : List Nat) :
    ∀ (acc : Graph) (i : Nat),
      fanins (D.foldl (sinsControls sw) acc) i = fanins acc i := by
  induction D with
  | nil => intro acc i; rfl
  | cons d D ih =>
    intro acc i
    rw [List.foldl_cons, ih, sinsControls_fanins]

theorem sinsFold_fanouts (sw : List Nat) (D : List Nat) :
    ∀ (acc : Graph) (i : Nat),
      fanouts (D.foldl (sinsControls sw) acc) i = fanouts acc i := by
  induction D with
  | nil => intro acc i; rfl
  | cons d D ih =>
    intro acc i
    rw [List.foldl_cons, ih, sinsControls_fanouts]

theorem sinsFold_isSome (sw : List Nat) (D : List Nat) :
    ∀ (acc : Graph) (i : Nat),
      (findNode (D.foldl (sinsControls sw) acc) i).isSome =
        (findNode acc i).isSome := by
  induction D with
  | nil => intro acc i; rfl
  | cons d D ih =>
    intro acc i
    rw [List.foldl_cons, ih, sinsControls_isSome]

theorem sinsFold_adds (sw : List Nat) (D : List Nat) :
    ∀ (acc : Graph) (d : Nat), d ∈ D → ∀ s f, s ∈ fanins acc d →
      s ∈ sw → f ∈ fanins acc d → f ∉ sw →
      f ∈ ctrlInputs (D.foldl (sinsControls sw) acc) s := by
  induction D with
  | nil => intro acc d hd; cases hd
  | cons d0 D ih =>
    intro acc d hd s f hs hsw hf hfw
    rw [List.foldl_cons]
    rcases List.mem_cons.mp hd with rfl | hd
    · exact sinsFold_mono sw D _ s f (sinsControls_adds sw acc d s f hs hsw hf hfw)
    · refine ih _ d hd s f ?_ hsw ?_ hfw
      · rw [sinsControls_fanins]; exact hs
      · rw [sinsControls_fanins]; exact hf

theorem soutsFold_mono (sw : List Nat) (D : List Nat) :
    ∀ (acc : Graph) (i v : Nat), v ∈ ctrlInputs acc i →
      v ∈ ctrlInputs (D.foldl (soutsControls sw) acc) i := by
  induction D with
  | nil => intro acc i v h; exact h
  | cons d D ih =>
    intro acc i v h
    exact ih _ i v (soutsControls_mono sw acc d i v h)

theorem soutsFold_adds (sw : List Nat) (D : List Nat) :
    ∀ (acc : Graph) (d : Nat), d ∈ D → ∀ so f, so ∈ fanouts acc d →
      so ∈ sw → f ∈ fanouts acc d → f ∉ sw →
      (findNode acc f).isSome = true →
      so ∈ ctrlInputs (D.foldl (soutsControls sw) acc) f := by
  induction D with
  | nil => intro acc d hd; cases hd
  | cons d0 D ih =>
    intro acc d hd so f hso hsw hf hfw hfsome
    rw [List.foldl_cons]
    rcases List.mem_cons.mp hd with rfl | hd
    · exact soutsFold_mono sw D _ f so
        (soutsControls_adds sw acc d so f hso hsw hf hfw hfsome)
    · refine ih _ d hd so f ?_ hsw ?_ hfw ?_
      · rw [soutsControls_fanouts]; exact hso
      · rw [soutsControls_fanouts]; exact hf
      · rw [soutsControls_isSome]; exact hfsome

/-- Helper: when every consumer of every shape-passing tensor is
ranked, the selection stage succeeds. -/
theorem selectTsDests_ok_of_ranked (t : TopoIndex) (po θ : Int)
    (outs : List Tensor)
    (h : ∀ ts ∈ outs, ∀ nd, ts.ndims = some nd → ¬ nd ≤ 1 →
      ∀ c ∈ ts.consumers, (getOrder t c).isSome) :
    ∃ res, selectTsDests t (some po) θ outs = .ok res := by
  induction outs with
  | nil => exact ⟨[], rfl⟩
  | cons ts rest ih =>
    obtain ⟨res, hres⟩ := ih
      (fun a ha nd hnd hle c hc => h a (List.mem_cons_of_mem _ ha) nd hnd hle c hc)
    cases hnd : ts.ndims with
    | none =>
      rw [selectTsDests_cons_none t po θ ts rest hnd]
      exact ⟨res, hres⟩
    | some nd =>
      by_cases hle : nd ≤ 1
      · rw [selectTsDests_cons_small t po θ ts rest nd hnd hle]
        exact ⟨res, hres⟩
      · rw [selectTsDests_cons_big t po θ ts rest nd hnd hle]
        rw [candFilter_ok_of_ranked t po θ ts.consumers
          (h ts (List.mem_cons_self _ _) nd hnd hle), except_bind_ok,
          hres, except_bind_ok]
        by_cases he : (ts.consumers.filter (fun c =>
            match getOrder t c with
            | some o => decide (θ < o - po)
            | none => false)).isEmpty
        · rw [if_pos he]; exact ⟨res, rfl⟩
        · rw [if_neg he]; exact ⟨_, rfl⟩

/-- Helper: a `candFilter` failure pinpoints an unranked consumer. -/
theorem candFilter_error_elim (t : TopoIndex) (po θ : Int)
    (cs : List Nat) (e : String)
    (h : candFilter t (some po) θ cs = .error e) :
    ∃ c ∈ cs, getOrder t c = none := by
  by_contra hno
  push_neg at hno
  have hall : ∀ c ∈ cs, (getOrder t c).isSome := by
    intro c hc
    exact Option.ne_none_iff_isSome.mp (hno c hc)
  rw [candFilter_ok_of_ranked t po θ cs hall] at h
  cases h

/-- Helper: a selection failure pinpoints a shape-passing tensor with
an unranked consumer. -/
theorem selectTsDests_error_elim (t : TopoIndex) (po θ : Int)
    (outs : List Tensor) (e : String)
    (h : selectTsDests t (some po) θ outs = .error e) :
    ∃ ts ∈ outs, (∃ nd, ts.ndims = some nd ∧ 1 < nd) ∧
      ∃ c ∈ ts.consumers, getOrder t c = none := by
  induction outs generalizing e with
  | nil => cases h
  | cons ts rest ih =>
    cases hnd : ts.ndims with
    | none =>
      rw [selectTsDests_cons_none t po θ ts rest hnd] at h
      obtain ⟨a, ha, hp⟩ := ih e h
      exact ⟨a, List.mem_cons_of_mem _ ha, hp⟩
    | some nd =>
      by_cases hle : nd ≤ 1
      · rw [selectTsDests_cons_small t po θ ts rest nd hnd hle] at h
        obtain ⟨a, ha, hp⟩ := ih e h
        exact ⟨a, List.mem_cons_of_mem _ ha, hp⟩
      · rw [selectTsDests_cons_big t po θ ts rest nd hnd hle] at h
        cases hcf : candFilter t (some po) θ ts.consumers with
        | error e2 =>
          obtain ⟨c, hc, hcn⟩ := candFilter_error_elim t po θ ts.consumers e2 hcf
          exact ⟨ts, List.mem_cons_self _ _,
            ⟨nd, hnd, by omega⟩, c, hc, hcn⟩
        | ok cands =>
          rw [hcf, except_bind_ok] at h
          cases hrest : selectTsDests t (some po) θ rest with
          | error e3 =>
            rw [hrest, except_bind_error] at h
            obtain ⟨a, ha, hp⟩ := ih e3 hrest
            exact ⟨a, List.mem_cons_of_mem _ ha, hp⟩
          | ok acc =>
            rw [hrest, except_bind_ok] at h
            by_cases he : cands.isEmpty
            · rw [if_pos he] at h; cases h
            · rw [if_neg he] at h; cases h

/-- Helper: an unranked consumer of a shape-passing tensor makes the
selection stage fail. -/
theorem selectTsDests_error_of_unranked (t : TopoIndex) (po θ : Int)
    (outs : List Tensor)
    (h : ∃ ts ∈ outs, (∃ nd, ts.ndims = some nd ∧ 1 < nd) ∧
      ∃ c ∈ ts.consumers, getOrder t c = none) :
    ∃ e, selectTsDests t (some po) θ outs = .error e := by
  induction outs with
  | nil => simp at h
  | cons ts0 rest ih =>
    obtain ⟨ts, hts, ⟨nd, hnd, hnd1⟩, c, hc, hcn⟩ := h
    rcases List.mem_cons.mp hts with rfl | htsr
    · rw [selectTsDests_cons_big t po θ ts rest nd hnd (by omega)]
      rw [candFilter_error_of_unranked t po θ ts.consumers ⟨c, hc, hcn⟩,
        except_bind_error]
      exact ⟨_, rfl⟩
    · have hrest := ih ⟨ts, htsr, ⟨nd, hnd, hnd1⟩, c, hc, hcn⟩
      obtain ⟨e, he⟩ := hrest
      cases hnd0 : ts0.ndims with
      | none =>
        rw [selectTsDests_cons_none t po θ ts0 rest hnd0]
        exact ⟨e, he⟩
      | some nd0 =>
        by_cases hle0 : nd0 ≤ 1
        · rw [selectTsDests_cons_small t po θ ts0 rest nd0 hnd0 hle0]
          exact ⟨e, he⟩
        · rw [selectTsDests_cons_big t po θ ts0 rest nd0 hnd0 hle0]
          cases hcf : candFilter t (some po) θ ts0.consumers with
          | error e2 =>
            rw [except_bind_error]
            exact ⟨e2, rfl⟩
          | ok cands =>
            rw [except_bind_ok, he, except_bind_error]
            exact ⟨e, rfl⟩

/-- Helper: `_groupby` succeeds on every non-empty input. -/
theorem groupby_some_of_ne_nil (opsOrds : List (Nat × Int)) (limit : Int)
    (h : opsOrds ≠ []) : ∃ bs, groupby opsOrds limit = some bs := by
  unfold groupby
  cases hs : sortByKey id (opsOrds.map (·.2)) with
  | nil =>
    exfalso
    have hlen := (sortByKey_perm id (opsOrds.map (·.2))).length_eq
    rw [hs] at hlen
    simp at hlen
    exact h (List.eq_nil_of_length_eq_zero hlen.symm)
  | cons r rs => exact ⟨_, rfl⟩

/-- Helper: `insertStep` cannot fail on a non-empty candidate set. -/
theorem insertStep_ok (srcOp : Nat) (acc : LMSState)
    (tsCands : Tensor × List Nat) (h : tsCands.2 ≠ []) :
    ∃ s', insertStep srcOp acc tsCands = .ok s' := by
  have hne : tsCands.2.map
      (fun op => (op, (getOrder acc.topo op).getD 0)) ≠ [] := by
    intro hx
    exact h (List.map_eq_nil_iff.mp hx)
  obtain ⟨bs, hbs⟩ := groupby_some_of_ne_nil _ acc.swapinGroupby hne
  unfold insertStep
  rw [hbs]
  exact ⟨_, rfl⟩

/-- Helper: the per-tensor insertion fold cannot fail when every
candidate set is non-empty. -/
theorem insertFold_ok (srcOp : Nat) (tsDests : List (Tensor × List Nat)) :
    ∀ (s : LMSState), (∀ p ∈ tsDests, p.2 ≠ []) →
      ∃ s', tsDests.foldlM (insertStep srcOp) s = .ok s' := by
  induction tsDests with
  | nil => intro s _; exact ⟨s, rfl⟩
  | cons p rest ih =>
    intro s hall
    obtain ⟨s1, hs1⟩ := insertStep_ok srcOp s p (hall p (List.mem_cons_self _ _))
    rw [show (p :: rest).foldlM (insertStep srcOp) s =
      insertStep srcOp s p >>= fun b => rest.foldlM (insertStep srcOp) b
      from rfl, hs1, except_bind_ok]
    exact ih s1 (fun q hq => hall q (List.mem_cons_of_mem _ hq))

/-- Unfolding `insertSwapNodes` to its selection-then-insert shape. -/
theorem insertSwapNodes_eq (s : LMSState) (srcOp : Nat) :
    insertSwapNodes s srcOp =
      (selectTsDests s.topo (getOrder s.topo srcOp) s.swapoutThreshold
          (nodeOutputs s.graph srcOp)) >>= (fun tsDests =>
        if tsDests.isEmpty then
          pure { s with sourced := s.sourced ++ [srcOp] }
        else tsDests.foldlM (insertStep srcOp)
          { s with sourced := s.sourced ++ [srcOp] }) := rfl

/-- C9: the traversal silently skips a producer whose own rank is
absent (the step leaves the engine state unchanged), but candidate
selection for a ranked producer fails exactly when some consumer of a
shape-passing output tensor has no assigned rank — the distance
subtraction is total only under that precondition. -/
theorem C9_consumer_rank_precondition (s : LMSState) (fuel : Nat)
    (srcOp : Nat) (rest closed : List Nat) (po : Int) :
    (getOrder s.topo srcOp = none →
      doActionLoop s (fuel + 1) (srcOp :: rest) closed =
        doActionLoop s fuel
          (enqueue closed (dedup (fanouts s.graph srcOp)) rest)
          (closed ++ [srcOp])) ∧
    (getOrder s.topo srcOp = some po →
      ((∃ e, insertSwapNodes s srcOp = .error e) ↔
        ∃ ts ∈ nodeOutputs s.graph srcOp,
          (∃ nd, ts.ndims = some nd ∧ 1 < nd) ∧
          ∃ c ∈ ts.consumers, getOrder s.topo c = none)) := by
  constructor
  · intro hnone
    have hbody : doActionBody s srcOp = pure s := by
      unfold doActionBody
      by_cases hexcl : s.exclOps.contains srcOp
      · rw [if_pos hexcl]
      · rw [if_neg hexcl, if_pos (by rw [hnone]; rfl)]
    rw [show doActionLoop s (fuel + 1) (srcOp :: rest) closed =
      (doActionBody s srcOp) >>= (fun s' => doActionLoop s' fuel
        (enqueue closed (dedup (fanouts s.graph srcOp)) rest)
        (closed ++ [srcOp])) from rfl]
    rw [hbody]
    rfl
  · intro hpo
    constructor
    · rintro ⟨e, he⟩
      rw [insertSwapNodes_eq, hpo] at he
      cases hsel : selectTsDests s.topo (some po) s.swapoutThreshold
          (nodeOutputs s.graph srcOp) with
      | error e2 =>
        exact selectTsDests_error_elim s.topo po s.swapoutThreshold _ e2 hsel
      | ok tsDests =>
        exfalso
        rw [hsel, except_bind_ok] at he
        by_cases hemp : tsDests.isEmpty
        · rw [if_pos hemp] at he; cases he
        · rw [if_neg hemp] at he
          have hall : ∀ p ∈ tsDests, p.2 ≠ [] := by
            intro p hp
            have hres := selectTsDests_ok_elim s.topo po s.swapoutThreshold
              _ _ hsel
            rw [hres] at hp
            obtain ⟨a, _, hfa⟩ := List.mem_filterMap.mp hp
            obtain ⟨-, h2, -, hne⟩ :=
              tsSelector_some_elim s.topo po s.swapoutThreshold a p hfa
            rw [h2]
            intro hx
            exact hne (by rw [hx]; rfl)
          obtain ⟨s', hs'⟩ := insertFold_ok srcOp tsDests _ hall
          rw [hs'] at he
          cases he
    · intro hex
      obtain ⟨e, he⟩ := selectTsDests_error_of_unranked s.topo po
        s.swapoutThreshold _ hex
      refine ⟨e, ?_⟩
      rw [insertSwapNodes_eq, hpo, he, except_bind_error]

/-- Witness for C9: node 1 has no rank, so dequeuing it changes
nothing; and the ranked producer 0 with the unranked consumer 1 makes
`_insert_swap_nodes` raise. -/
theorem C9_witness :
    (doActionLoop stateC9 1 [1] [] =
      doActionLoop stateC9 0
        (enqueue [] (dedup (fanouts graphC9 1)) []) ([] ++ [1])) ∧
    (∃ e, insertSwapNodes stateC9 0 = .error e) :=
  ⟨(C9_consumer_rank_precondition stateC9 0 1 [] [] 0).1 (by rfl),
   ((C9_consumer_rank_precondition stateC9 0 0 [] [] 0).2 (by rfl)).mpr
     ⟨tensorC9, by decide, ⟨2, rfl, by decide⟩, 1, by decide, rfl⟩⟩

theorem forTsStep_fields (soId : Nat) (ts : Tensor)
    (acc : LMSState × List (Nat × Nat)) (destOps : List Nat) :
    (forTsStep soId ts acc destOps).1.exclOps = acc.1.exclOps ∧
    (forTsStep soId ts acc destOps).1.swapoutOps = acc.1.swapoutOps ∧
    (forTsStep soId ts acc destOps).1.swapinOps = acc.1.swapinOps ∧
    (forTsStep soId ts acc destOps).1.sourced = acc.1.sourced :=
  ⟨rfl, rfl, rfl, rfl⟩

theorem forTsFold_fields (soId : Nat) (ts : Tensor) :
    ∀ (targets : List (List Nat)) (p : LMSState × List (Nat × Nat)),
      (targets.foldl (forTsStep soId ts) p).1.exclOps = p.1.exclOps ∧
      (targets.foldl (forTsStep soId ts) p).1.swapoutOps = p.1.swapoutOps ∧
      (targets.foldl (forTsStep soId ts) p).1.swapinOps = p.1.swapinOps ∧
      (targets.foldl (forTsStep soId ts) p).1.sourced = p.1.sourced := by
  intro targets
  induction targets with
  | nil => intro p; exact ⟨rfl, rfl, rfl, rfl⟩
  | cons d ds ih =>
    intro p
    rw [List.foldl_cons]
    obtain ⟨h1, h2, h3, h4⟩ := ih (forTsStep soId ts p d)
    obtain ⟨g1, g2, g3, g4⟩ := forTsStep_fields soId ts p d
    exact ⟨h1.trans g1, h2.trans g2, h3.trans g3, h4.trans g4⟩

theorem insertSwapNodesForTs_fields (s : LMSState) (srcOp : Nat)
    (ts : Tensor) (targets : List (List Nat)) :
    (insertSwapNodesForTs s srcOp ts targets).1.exclOps = s.exclOps ∧
    (insertSwapNodesForTs s srcOp ts targets).1.swapoutOps = s.swapoutOps ∧
    (insertSwapNodesForTs s srcOp ts targets).1.swapinOps = s.swapinOps ∧
    (insertSwapNodesForTs s srcOp ts targets).1.sourced = s.sourced := by
  obtain ⟨h1, h2, h3, h4⟩ := forTsFold_fields (addSwapout s ts).2 ts targets
    ({ (addSwapout s ts).1 with
        graph := (addControlInputs (addSwapout s ts).1.graph
          (addSwapout s ts).2 srcOp).2 }, [])
  exact ⟨h1, h2, h3, h4⟩

theorem recordSinFold_props (srcOp : Nat) :
    ∀ (L : List (Nat × Nat)) (st : LMSState),
      (createdExcluded st →
        createdExcluded (L.foldl (recordSin srcOp) st)) ∧
      (L.foldl (recordSin srcOp) st).sourced = st.sourced ∧
      (∀ n, n ∈ st.exclOps → n ∈ (L.foldl (recordSin srcOp) st).exclOps) ∧
      (∀ n, n ∈ st.swapoutOps ++ st.swapinOps →
        n ∈ (L.foldl (recordSin srcOp) st).swapoutOps ++
          (L.foldl (recordSin srcOp) st).swapinOps) := by
  intro L
  induction L with
  | nil =>
    intro st
    exact ⟨fun h => h, rfl, fun n hn => hn, fun n hn => hn⟩
  | cons ds L ih =>
    intro st
    rw [List.foldl_cons]
    obtain ⟨h1, h2, h3, h4⟩ := ih (recordSin srcOp st ds)
    refine ⟨?_, h2, ?_, ?_⟩
    · intro hinv
      apply h1
      intro n hn
      unfold recordSin at hn ⊢
      simp only at hn ⊢
      rcases List.mem_append.mp hn with hno | hni
      · exact List.mem_append_left _ (hinv n (List.mem_append_left _ hno))
      · rcases List.mem_append.mp hni with hni | hni
        · exact List.mem_append_left _ (hinv n (List.mem_append_right _ hni))
        · exact List.mem_append_right _ hni
    · intro n hn
      apply h3
      unfold recordSin
      simp only
      exact List.mem_append_left _ hn
    · intro n hn
      apply h4
      unfold recordSin
      simp only
      rcases List.mem_append.mp hn with hno | hni
      · exact List.mem_append_left _ hno
      · exact List.mem_append_right _ (List.mem_append_left _ hni)

theorem insertStep_props (srcOp : Nat) (acc : LMSState)
    (p : Tensor × List Nat) (s1 : LMSState)
    (h : insertStep srcOp acc p = .ok s1) :
    (createdExcluded acc → createdExcluded s1) ∧
    s1.sourced = acc.sourced ∧
    (∀ n, n ∈ acc.exclOps → n ∈ s1.exclOps) ∧
    (∀ n, n ∈ acc.swapoutOps ++ acc.swapinOps →
      n ∈ s1.swapoutOps ++ s1.swapinOps) := by
  unfold insertStep at h
  cases hgb : groupby (p.2.map
      (fun op => (op, (getOrder acc.topo op).getD 0))) acc.swapinGroupby with
  | none => rw [hgb] at h; cases h
  | some grp =>
    rw [hgb] at h
    have hs1 : s1 = (insertSwapNodesForTs acc srcOp p.1 grp).2.2.foldl
        (recordSin srcOp)
        { (insertSwapNodesForTs acc srcOp p.1 grp).1 with
          swapoutOps := (insertSwapNodesForTs acc srcOp p.1 grp).1.swapoutOps
            ++ [(insertSwapNodesForTs acc srcOp p.1 grp).2.1],
          exclOps := (insertSwapNodesForTs acc srcOp p.1 grp).1.exclOps
            ++ [(insertSwapNodesForTs acc srcOp p.1 grp).2.1] } :=
      (Except.ok.inj h).symm
    obtain ⟨hFe, hFo, hFi, hFs⟩ :=
      insertSwapNodesForTs_fields acc srcOp p.1 grp
    obtain ⟨hP1, hP2, hP3, hP4⟩ := recordSinFold_props srcOp
      (insertSwapNodesForTs acc srcOp p.1 grp).2.2
      { (insertSwapNodesForTs acc srcOp p.1 grp).1 with
        swapoutOps := (insertSwapNodesForTs acc srcOp p.1 grp).1.swapoutOps
          ++ [(insertSwapNodesForTs acc srcOp p.1 grp).2.1],
        exclOps := (insertSwapNodesForTs acc srcOp p.1 grp).1.exclOps
          ++ [(insertSwapNodesForTs acc srcOp p.1 grp).2.1] }
    rw [hs1]
    refine ⟨?_, ?_, ?_, ?_⟩
    · intro hinv
      apply hP1
      intro n hn
      simp only [hFe, hFo, hFi] at hn ⊢
      rcases List.mem_append.mp hn with hno | hni
      · rcases List.mem_append.mp hno with hno | hno
        · exact List.mem_append_left _
            (hinv n (List.mem_append_left _ hno))
        · exact List.mem_append_right _ hno
      · exact List.mem_append_left _ (hinv n (List.mem_append_right _ hni))
    · rw [hP2]
      simp only [hFs]
    · intro n hn
      apply hP3
      simp only [hFe]
      exact List.mem_append_left _ hn
    · intro n hn
      apply hP4
      simp only [hFo, hFi]
      rcases List.mem_append.mp hn with hno | hni
      · exact List.mem_append_left _ (List.mem_append_left _ hno)
      · exact List.mem_append_right _ hni

theorem insertStepFold_props (srcOp : Nat) :
    ∀ (L : List (Tensor × List Nat)) (st s1 : LMSState),
      L.foldlM (insertStep srcOp) st = .ok s1 →
      (createdExcluded st → createdExcluded s1) ∧
      s1.sourced = st.sourced ∧
      (∀ n, n ∈ st.exclOps → n ∈ s1.exclOps) ∧
      (∀ n, n ∈ st.swapoutOps ++ st.swapinOps →
        n ∈ s1.swapoutOps ++ s1.swapinOps) := by
  intro L
  induction L with
  | nil =>
    intro st s1 h
    have : st = s1 := Except.ok.inj h
    subst this
    exact ⟨fun h => h, rfl, fun n hn => hn, fun n hn => hn⟩
  | cons p L ih =>
    intro st s1 h
    rw [show (p :: L).foldlM (insertStep srcOp) st =
      insertStep srcOp st p >>= fun b => L.foldlM (insertStep srcOp) b
      from rfl] at h
    cases hstep : insertStep srcOp st p with
    | error e => rw [hstep, except_bind_error] at h; cases h
    | ok mid =>
      rw [hstep, except_bind_ok] at h
      obtain ⟨a1, a2, a3, a4⟩ := insertStep_props srcOp st p mid hstep
      obtain ⟨b1, b2, b3, b4⟩ := ih mid s1 h
      exact ⟨fun hi => b1 (a1 hi), b2.trans a2,
        fun n hn => b3 n (a3 n hn), fun n hn => b4 n (a4 n hn)⟩

theorem insertSwapNodes_props (s : LMSState) (srcOp : Nat) (s1 : LMSState)
    (h : insertSwapNodes s srcOp = .ok s1) :
    (createdExcluded s → createdExcluded s1) ∧
    s1.sourced = s.sourced ++ [srcOp] ∧
    (∀ n, n ∈ s.exclOps → n ∈ s1.exclOps) ∧
    (∀ n, n ∈ s.swapoutOps ++ s.swapinOps →
      n ∈ s1.swapoutOps ++ s1.swapinOps) := by
  rw [insertSwapNodes_eq] at h
  cases hsel : selectTsDests s.topo (getOrder s.topo srcOp)
      s.swapoutThreshold (nodeOutputs s.graph srcOp) with
  | error e => rw [hsel, except_bind_error] at h; cases h
  | ok tsDests =>
    rw [hsel, except_bind_ok] at h
    by_cases hemp : tsDests.isEmpty
    · rw [if_pos hemp] at h
      have hs1 : { s with sourced := s.sourced ++ [srcOp] } = s1 :=
        Except.ok.inj h
      rw [← hs1]
      exact ⟨fun hi => hi, rfl, fun n hn => hn, fun n hn => hn⟩
    · rw [if_neg hemp] at h
      obtain ⟨b1, b2, b3, b4⟩ := insertStepFold_props srcOp tsDests
        { s with sourced := s.sourced ++ [srcOp] } s1 h
      exact ⟨fun hi => b1 hi, b2, b3, b4⟩

theorem doActionBody_props (s : LMSState) (srcOp : Nat) (s1 : LMSState)
    (h : doActionBody s srcOp = .ok s1) :
    (createdExcluded s → createdExcluded s1) ∧
    (∀ n, n ∈ s.exclOps → n ∈ s1.exclOps) ∧
    (∀ n, n ∈ s.swapoutOps ++ s.swapinOps →
      n ∈ s1.swapoutOps ++ s1.swapinOps) ∧
    (s1.sourced = s.sourced ∨
      (s1.sourced = s.sourced ++ [srcOp] ∧
        s.exclOps.contains srcOp = false)) := by
  unfold doActionBody at h
  by_cases hexcl : s.exclOps.contains srcOp
  · rw [if_pos hexcl] at h
    have : s = s1 := Except.ok.inj h
    subst this
    exact ⟨fun hi => hi, fun n hn => hn, fun n hn => hn, Or.inl rfl⟩
  · rw [if_neg hexcl] at h
    have hexcl2 : s.exclOps.contains srcOp = false :=
      Bool.not_eq_true _ ▸ hexcl
    by_cases hord : (getOrder s.topo srcOp).isNone
    · rw [if_pos hord] at h
      have : s = s1 := Except.ok.inj h
      subst this
      exact ⟨fun hi => hi, fun n hn => hn, fun n hn => hn, Or.inl rfl⟩
    · rw [if_neg hord] at h
      by_cases hincl : !s.inclOps.isEmpty
      · rw [if_pos hincl] at h
        by_cases hin : s.inclOps.contains srcOp
        · rw [if_pos hin] at h
          obtain ⟨a1, a2, a3, a4⟩ := insertSwapNodes_props s srcOp s1 h
          exact ⟨a1, a3, a4, Or.inr ⟨a2, hexcl2⟩⟩
        · rw [if_neg hin] at h
          have : s = s1 := Except.ok.inj h
          subst this
          exact ⟨fun hi => hi, fun n hn => hn, fun n hn => hn, Or.inl rfl⟩
      · rw [if_neg hincl] at h
        obtain ⟨a1, a2, a3, a4⟩ := insertSwapNodes_props s srcOp s1 h
        exact ⟨a1, a3, a4, Or.inr ⟨a2, hexcl2⟩⟩

/-- C8: every swap node the Relocation Inserter creates is recorded in
the excluded set the moment it is recorded as created, the invariant is
kept by the whole traversal, exclusion is permanent (the excluded set
only grows), the orchestrator leaves the state untouched for an
excluded op, and consequently an op already recorded as created is
never later passed to `_insert_swap_nodes` (never enters `sourced`). -/
theorem C8_inserted_ops_never_relocation_sources :
    ∀ (fuel : Nat) (q closed : List Nat) (s s1 : LMSState),
      createdExcluded s →
      doActionLoop s fuel q closed = .ok s1 →
      (∀ op, s.exclOps.contains op = true → doActionBody s op = pure s) ∧
      createdExcluded s1 ∧
      (∀ n, n ∈ s.exclOps → n ∈ s1.exclOps) ∧
      (∀ n, n ∈ s.swapoutOps ++ s.swapinOps →
        n ∈ s1.sourced → n ∈ s.sourced) := by
  intro fuel
  induction fuel with
  | zero => intro q closed s s1 _ h; cases h
  | succ fuel ih =>
    intro q closed s s1 hinv h
    have hskip : ∀ op, s.exclOps.contains op = true →
        doActionBody s op = pure s := by
      intro op hop
      unfold doActionBody
      rw [if_pos hop]
    cases q with
    | nil =>
      have : s = s1 := Except.ok.inj h
      subst this
      exact ⟨hskip, hinv, fun n hn => hn, fun n _ hn => hn⟩
    | cons srcOp rest =>
      rw [show doActionLoop s (fuel + 1) (srcOp :: rest) closed =
        (doActionBody s srcOp) >>= (fun s2 => doActionLoop s2 fuel
          (enqueue closed (dedup (fanouts s.graph srcOp)) rest)
          (closed ++ [srcOp])) from rfl] at h
      cases hb : doActionBody s srcOp with
      | error e => rw [hb, except_bind_error] at h; cases h
      | ok s2 =>
        rw [hb, except_bind_ok] at h
        obtain ⟨a1, a2, a3, a4⟩ := doActionBody_props s srcOp s2 hb
        obtain ⟨-, b2, b3, b4⟩ := ih _ _ s2 s1 (a1 hinv) h
        refine ⟨hskip, b2, fun n hn => b3 n (a2 n hn), ?_⟩
        intro n hn hs1
        have hn2 : n ∈ s2.sourced := b4 n (a3 n hn) hs1
        rcases a4 with hsr | ⟨hsr, hne⟩
        · rw [hsr] at hn2
          exact hn2
        · rw [hsr] at hn2
          rcases List.mem_append.mp hn2 with hn2 | hn2
          · exact hn2
          · exfalso
            have hnsrc : n = srcOp := by simpa using hn2
            have hmem : srcOp ∈ s.exclOps := hnsrc ▸ hinv n hn
            have h2 : s.exclOps.contains srcOp = true :=
              List.elem_iff.mpr hmem
            rw [hne] at h2
            cases h2

/-- Witness for C8: a state whose single created swap-out 7 is
excluded; the empty-queue run succeeds and the orchestrator's body
leaves the state unchanged when op 7 is dequeued. -/
theorem C8_witness :
    doActionBody stateC8 7 = pure stateC8 :=
  (C8_inserted_ops_never_relocation_sources 1 [] [] stateC8 stateC8
      (by intro n hn; simp [stateC8, stateC9] at hn ⊢; exact hn) rfl).1 7
    (by decide)

theorem syncOps_mode1 (g : Graph) (si so : List Nat) (tr : List Triple) :
    syncOps g si so tr 1 =
      (dedup (tr.map (fun t => t.2.1))).foldl (sinsControls si) g := by
  simp [syncOps]

theorem syncOps_mode2 (g : Graph) (si so : List Nat) (tr : List Triple) :
    syncOps g si so tr 2 =
      (dedup (tr.map (fun t => t.1))).foldl (soutsControls so) g := by
  simp [syncOps]

theorem syncOps_mode3 (g : Graph) (si so : List Nat) (tr : List Triple) :
    syncOps g si so tr 3 =
      (dedup (tr.map (fun t => t.1))).foldl (soutsControls so)
        ((dedup (tr.map (fun t => t.2.1))).foldl (sinsControls si) g) := by
  simp [syncOps]

/-- C2 (amended): in synchronous mode 1 (and 3), for every consumer
recorded in a relocation triple, every swap-in in the consumer's fan-in
receives a control edge making the swap-in wait on each remaining
original fan-in op (the direction opposite to the one claimed); in mode
2 (and 3), every original fan-out of a recorded producer other than the
swap-outs receives a control edge making it wait on each swap-out, as
the claim states for the producer side. -/
theorem C2_amended_sync_direction (g : Graph) (swapins swapouts : List Nat)
    (triples : List Triple) (mode : Int)
    (hwf : ∀ tr ∈ triples, ∀ f ∈ fanouts g tr.1,
      (findNode g f).isSome = true) :
    ((mode = 1 ∨ mode = 3) →
      ∀ tr ∈ triples, ∀ s, s ∈ fanins g tr.2.1 → s ∈ swapins →
        ∀ f, f ∈ fanins g tr.2.1 → f ∉ swapins →
          f ∈ ctrlInputs (syncOps g swapins swapouts triples mode) s) ∧
    ((mode = 2 ∨ mode = 3) →
      ∀ tr ∈ triples, ∀ so, so ∈ fanouts g tr.1 → so ∈ swapouts →
        ∀ f, f ∈ fanouts g tr.1 → f ∉ swapouts →
          so ∈ ctrlInputs (syncOps g swapins swapouts triples mode) f) := by
  constructor
  · rintro (rfl | rfl) tr htr s hs hsw f hf hfw
    · rw [syncOps_mode1]
      exact sinsFold_adds swapins _ g tr.2.1
        ((mem_dedup _ _).mpr (List.mem_map.mpr ⟨tr, htr, rfl⟩))
        s f hs hsw hf hfw
    · rw [syncOps_mode3]
      apply soutsFold_mono
      exact sinsFold_adds swapins _ g tr.2.1
        ((mem_dedup _ _).mpr (List.mem_map.mpr ⟨tr, htr, rfl⟩))
        s f hs hsw hf hfw
  · rintro (rfl | rfl) tr htr so hso hsow f hf hfw
    · rw [syncOps_mode2]
      exact soutsFold_adds swapouts _ g tr.1
        ((mem_dedup _ _).mpr (List.mem_map.mpr ⟨tr, htr, rfl⟩))
        so f hso hsow hf hfw (hwf tr htr f hf)
    · rw [syncOps_mode3]
      refine soutsFold_adds swapouts _ _ tr.1
        ((mem_dedup _ _).mpr (List.mem_map.mpr ⟨tr, htr, rfl⟩))
        so f ?_ hsow ?_ hfw ?_
      · rw [sinsFold_fanouts]; exact hso
      · rw [sinsFold_fanouts]; exact hf
      · rw [sinsFold_isSome]; exact hwf tr htr f hf

/-- Witness for C2 (amended): in the counterexample graph, mode 1 makes
the swap-in 3 wait on the remaining original fan-in 1 of consumer 2. -/
theorem C2_amended_witness :
    1 ∈ ctrlInputs (syncOps graphSync [3] [] [(0, 2, 3)] 1) 3 :=
  (C2_amended_sync_direction graphSync [3] [] [(0, 2, 3)] 1
      (by intro tr htr f hf; fin_cases htr; cases hf)).1
    (Or.inl rfl) (0, 2, 3) (by decide) 3 (by decide) (by decide)
    1 (by decide) (by decide)

/-- C4 (amended): on the spec's example — ranks `{1,2,10,11,12,20}`,
`limit = 5` — `_groupby` returns exactly the bands `{1,2}`,
`{10,11,12}`, `{20}`; and for every non-empty input of distinct
consumers with their ranks and every `limit ≥ 0`, `_groupby` succeeds
and returns bands that taken together contain exactly the input
consumers, no consumer in more than one band; each band is closed
under intermediate ranks, two band members with no band member
strictly between their ranks are at most `limit` apart, and —
maximal merging — any two consumers whose ranks are within `limit` of
each other always share a band.  (For `limit < 0` the claim fails:
see the counterexample.) -/
theorem C4_amended_grouping (opsOrds : List (Nat × Int)) (limit : Int)
    (hne : opsOrds ≠ []) (hlim : 0 ≤ limit)
    (hnd : (opsOrds.map Prod.fst).Nodup) :
    groupby c4Example 5 = some [[10, 11], [12, 13, 14], [15]] ∧
    ∃ bs, groupby opsOrds limit = some bs ∧
      (∀ pr ∈ opsOrds, ∃ b ∈ bs, pr.1 ∈ b) ∧
      (∀ b ∈ bs, ∀ op ∈ b, ∃ r, (op, r) ∈ opsOrds) ∧
      bs.Pairwise (fun b1 b2 => ∀ op, op ∈ b1 → op ∈ b2 → False) ∧
      (∀ b ∈ bs, ∀ op1 r1 op2 r2, (op1, r1) ∈ opsOrds →
        (op2, r2) ∈ opsOrds → op1 ∈ b → op2 ∈ b →
        ((∀ op3 r3, (op3, r3) ∈ opsOrds → r1 ≤ r3 → r3 ≤ r2 → op3 ∈ b) ∧
         (r1 < r2 → r2 - r1 ≤ limit ∨
           ∃ op3 r3, (op3, r3) ∈ opsOrds ∧ op3 ∈ b ∧
             r1 < r3 ∧ r3 < r2))) ∧
      (∀ op1 r1 op2 r2, (op1, r1) ∈ opsOrds → (op2, r2) ∈ opsOrds →
        r1 ≤ r2 → r2 - r1 ≤ limit → ∃ b ∈ bs, op1 ∈ b ∧ op2 ∈ b) := by
  refine ⟨by decide, ?_⟩
  have hperm := sortByKey_perm id (opsOrds.map (·.2))
  have hsorted := sortByKey_pairwise id (opsOrds.map (·.2))
  cases hsrt : sortByKey id (opsOrds.map (·.2)) with
  | nil =>
    exfalso
    rw [hsrt] at hperm
    have := hperm.symm.length_eq
    simp at this
    exact hne this
  | cons r0 rs =>
    rw [hsrt] at hperm hsorted
    have hmemV : ∀ v, v ∈ opsOrds.map (·.2) ↔ v ∈ r0 :: rs :=
      fun v => (hperm.mem_iff (a := v)).symm
    have hr0min : ∀ v ∈ rs, r0 ≤ v := by
      intro v hv
      exact (List.pairwise_cons.mp hsorted).1 v hv
    have hspec := mergeRanks_spec limit (r0 :: rs) hlim rs r0 r0
      (le_refl r0) (List.pairwise_cons.mp hsorted).2 hr0min
      (List.mem_cons_self _ _) (List.mem_cons_self _ _)
      (fun v hv => List.mem_cons_of_mem _ hv)
      (fun v w _ _ h1 h2 h3 h4 hvw => by omega)
    obtain ⟨hA, hB, hF, hC, hD, hE⟩ := hspec
    set ivs := mergeRanks limit r0 r0 rs with hivs
    -- membership in a band
    have hband : ∀ (y : Int × Int) (op : Nat),
        op ∈ (opsOrds.filter (fun p => y.1 ≤ p.2 && p.2 ≤ y.2)).map (·.1) ↔
        ∃ r, (op, r) ∈ opsOrds ∧ y.1 ≤ r ∧ r ≤ y.2 := by
      intro y op
      rw [List.mem_map]
      constructor
      · rintro ⟨p, hp, rfl⟩
        obtain ⟨hpo, hpb⟩ := List.mem_filter.mp hp
        rw [Bool.and_eq_true, decide_eq_true_iff, decide_eq_true_iff] at hpb
        exact ⟨p.2, hpo, hpb.1, hpb.2⟩
      · rintro ⟨r, hro, h1, h2⟩
        exact ⟨(op, r), List.mem_filter.mpr
          ⟨hro, by rw [Bool.and_eq_true, decide_eq_true_iff,
            decide_eq_true_iff]; exact ⟨h1, h2⟩⟩, rfl⟩
    -- every input rank is covered by some interval
    have hcov : ∀ v ∈ opsOrds.map (·.2), ∃ y ∈ ivs, y.1 ≤ v ∧ v ≤ y.2 := by
      intro v hv
      rcases List.mem_cons.mp ((hmemV v).mp hv) with heq0 | hv2
      · obtain ⟨h1, tail, heq, hle⟩ := hA
        refine ⟨(r0, h1), ?_, ?_, ?_⟩
        · rw [heq]; exact List.mem_cons_self _ _
        · simp only; omega
        · simp only; omega
      · exact hD v hv2
    refine ⟨ivs.map (fun y =>
      ((opsOrds.filter (fun p => y.1 ≤ p.2 && p.2 ≤ y.2)).map (·.1))),
      ?_, ?_, ?_, ?_, ?_, ?_⟩
    · unfold groupby
      rw [hsrt]
    · -- every consumer appears in some band
      intro pr hpr
      obtain ⟨y, hy, hy1, hy2⟩ := hcov pr.2 (List.mem_map.mpr ⟨pr, hpr, rfl⟩)
      refine ⟨_, List.mem_map.mpr ⟨y, hy, rfl⟩, ?_⟩
      exact (hband y pr.1).mpr ⟨pr.2, by simpa using hpr, hy1, hy2⟩
    · -- every band member comes from the input
      intro b hb op hop
      obtain ⟨y, hy, rfl⟩ := List.mem_map.mp hb
      obtain ⟨r, hro, -, -⟩ := (hband y op).mp hop
      exact ⟨r, hro⟩
    · -- bands are pairwise disjoint
      rw [List.pairwise_map]
      refine hC.imp ?_
      intro y1 y2 hsep op hop1 hop2
      obtain ⟨ra, hpa, ha1, ha2⟩ := (hband y1 op).mp hop1
      obtain ⟨rb, hpb, hb1, hb2⟩ := (hband y2 op).mp hop2
      have := rank_unique opsOrds hnd op ra rb hpa hpb
      omega
    · -- interval closure and the gap bound inside one band
      intro b hb op1 r1 op2 r2 hp1 hp2 hop1 hop2
      obtain ⟨y, hy, rfl⟩ := List.mem_map.mp hb
      obtain ⟨ra, hpa, ha1, ha2⟩ := (hband y op1).mp hop1
      obtain ⟨rb, hpb, hb1, hb2⟩ := (hband y op2).mp hop2
      have hra : ra = r1 := rank_unique opsOrds hnd op1 ra r1 hpa hp1
      have hrb : rb = r2 := rank_unique opsOrds hnd op2 rb r2 hpb hp2
      constructor
      · intro op3 r3 hp3 h31 h32
        exact (hband y op3).mpr ⟨r3, hp3, by omega, by omega⟩
      · intro h12
        have hr1V : r1 ∈ r0 :: rs :=
          (hmemV r1).mp (List.mem_map.mpr ⟨(op1, r1), hp1, rfl⟩)
        have hr2V : r2 ∈ r0 :: rs :=
          (hmemV r2).mp (List.mem_map.mpr ⟨(op2, r2), hp2, rfl⟩)
        rcases hE y hy r1 r2 hr1V hr2V (by omega) (by omega) (by omega)
          (by omega) h12 with hle | hu
        · exact Or.inl hle
        · obtain ⟨u, huV, hu1, hu2⟩ := hu
          obtain ⟨p, hp, hpu⟩ := List.mem_map.mp ((hmemV u).mpr huV)
          have hpmem : (p.1, u) ∈ opsOrds := by
            rw [← hpu]
            simpa using hp
          refine Or.inr ⟨p.1, u, hpmem, ?_, hu1, hu2⟩
          exact (hband y p.1).mpr ⟨u, hpmem, by omega, by omega⟩
    · -- maximal merging: ranks within `limit` land in the same band
      intro op1 r1 op2 r2 hp1 hp2 h12 hlim12
      obtain ⟨y1, hy1, h1a, h1b⟩ :=
        hcov r1 (List.mem_map.mpr ⟨(op1, r1), hp1, rfl⟩)
      obtain ⟨y2, hy2, h2a, h2b⟩ :=
        hcov r2 (List.mem_map.mpr ⟨(op2, r2), hp2, rfl⟩)
      have heqy : y1 = y2 := by
        by_contra hne2
        have hCsym : ivs.Pairwise
            (fun a b : Int × Int => a.2 + limit < b.1 ∨ b.2 + limit < a.1) :=
          hC.imp (fun h => Or.inl h)
        have hsym : Symmetric
            (fun a b : Int × Int => a.2 + limit < b.1 ∨ b.2 + limit < a.1) := by
          intro a b h
          tauto
        rcases List.Pairwise.forall hsym hCsym hy1 hy2 hne2 with h | h <;> omega
      subst heqy
      refine ⟨_, List.mem_map.mpr ⟨y1, hy1, rfl⟩, ?_, ?_⟩
      · exact (hband y1 op1).mpr ⟨r1, hp1, h1a, h1b⟩
      · exact (hband y1 op2).mpr ⟨r2, hp2, h2a, h2b⟩

/-- Witness for C4 (amended) at the spec's example: ranks
`{1,2,10,11,12,20}` with `limit = 5` yield exactly the bands `{1,2}`
(consumers 10, 11), `{10,11,12}` (consumers 12, 13, 14) and `{20}`
(consumer 15), and every part of the general banding law — coverage,
no duplication, interval closure, the gap bound and maximal merging —
holds at that input. -/
theorem C4_amended_witness :
    groupby c4Example 5 = some [[10, 11], [12, 13, 14], [15]] ∧
    ∃ bs, groupby c4Example 5 = some bs ∧
      (∀ pr ∈ c4Example, ∃ b ∈ bs, pr.1 ∈ b) ∧
      (∀ b ∈ bs, ∀ op ∈ b, ∃ r, (op, r) ∈ c4Example) ∧
      bs.Pairwise (fun b1 b2 => ∀ op, op ∈ b1 → op ∈ b2 → False) ∧
      (∀ b ∈ bs, ∀ op1 r1 op2 r2, (op1, r1) ∈ c4Example →
        (op2, r2) ∈ c4Example → op1 ∈ b → op2 ∈ b →
        ((∀ op3 r3, (op3, r3) ∈ c4Example → r1 ≤ r3 → r3 ≤ r2 → op3 ∈ b) ∧
         (r1 < r2 → r2 - r1 ≤ 5 ∨
           ∃ op3 r3, (op3, r3) ∈ c4Example ∧ op3 ∈ b ∧
             r1 < r3 ∧ r3 < r2))) ∧
      (∀ op1 r1 op2 r2, (op1, r1) ∈ c4Example → (op2, r2) ∈ c4Example →
        r1 ≤ r2 → r2 - r1 ≤ 5 → ∃ b ∈ bs, op1 ∈ b ∧ op2 ∈ b) :=
  C4_amended_grouping c4Example 5 (by decide) (by decide) (by decide)

/-- Python's `range(lo, hi)` contains exactly the integers of
`[lo, hi)`. -/
theorem mem_intRange (lo hi j : Int) :
    j ∈ intRange lo hi ↔ lo ≤ j ∧ j < hi := by
  unfold intRange
  rw [List.mem_map]
  constructor
  · rintro ⟨k, hk, he⟩
    have hk2 := List.mem_range.mp hk
    omega
  · rintro ⟨h1, h2⟩
    refine ⟨(j - lo).toNat, List.mem_range.mpr ?_, ?_⟩ <;> omega

/-- `intRange` is strictly increasing. -/
theorem intRange_pairwise (lo hi : Int) :
    (intRange lo hi).Pairwise (· < ·) := by
  unfold intRange
  rw [List.pairwise_map]
  refine List.Pairwise.imp ?_ (List.pairwise_lt_range _)
  intro a b h
  omega

/-- Equation lemma for `ddoSearch` at a rank with no candidates. -/
theorem ddoSearch_cons_nil (g : Graph) (t : TopoIndex) (s : Nat) (a : Int)
    (rest : List Int) (hca : ddoCandidates g t s a = []) :
    ddoSearch g t s (a :: rest) = ddoSearch g t s rest := by
  simp only [ddoSearch, hca]

/-- Equation lemma for `ddoSearch` at a rank with a candidate. -/
theorem ddoSearch_cons_cons (g : Graph) (t : TopoIndex) (s : Nat) (a : Int)
    (rest : List Int) (c0 : Nat) (cs : List Nat)
    (hca : ddoCandidates g t s a = c0 :: cs) :
    ddoSearch g t s (a :: rest) = some (c0, a) := by
  simp only [ddoSearch, hca]

/-- Helper: a successful search decomposes its rank list into an
exhausted prefix and the winning rank. -/
theorem ddoSearch_some_elim (g : Graph) (t : TopoIndex) (s : Nat)
    (L : List Int) (c : Nat) (i : Int)
    (h : ddoSearch g t s L = some (c, i)) :
    ∃ L1 L2, L = L1 ++ i :: L2 ∧
      (∀ j ∈ L1, ddoCandidates g t s j = []) ∧
      c ∈ ddoCandidates g t s i := by
  induction L with
  | nil => cases h
  | cons a rest ih =>
    cases hca : ddoCandidates g t s a with
    | nil =>
      rw [ddoSearch_cons_nil g t s a rest hca] at h
      obtain ⟨L1, L2, hL, h1, hc⟩ := ih h
      refine ⟨a :: L1, L2, by rw [hL]; rfl, ?_, hc⟩
      intro j hj
      rcases List.mem_cons.mp hj with hj | hj
      · subst hj; exact hca
      · exact h1 j hj
    | cons c0 cs =>
      rw [ddoSearch_cons_cons g t s a rest c0 cs hca] at h
      obtain ⟨hc0, ha⟩ := Prod.mk.inj (Option.some.inj h)
      subst ha
      refine ⟨[], rest, rfl, by simp, ?_⟩
      rw [hca, ← hc0]
      exact List.mem_cons_self _ _

/-- Helper: a failed search means every rank in the list was empty. -/
theorem ddoSearch_none_elim (g : Graph) (t : TopoIndex) (s : Nat)
    (L : List Int) (h : ddoSearch g t s L = none) :
    ∀ j ∈ L, ddoCandidates g t s j = [] := by
  induction L with
  | nil => simp
  | cons a rest ih =>
    cases hca : ddoCandidates g t s a with
    | nil =>
      rw [ddoSearch_cons_nil g t s a rest hca] at h
      intro j hj
      rcases List.mem_cons.mp hj with hj | hj
      · subst hj; exact hca
      · exact ih h j hj
    | cons c0 cs =>
      rw [ddoSearch_cons_cons g t s a rest c0 cs hca] at h
      cases h

/-- C7: given ranked endpoints, the trigger search examines exactly the
ranks strictly between `rank(fw_op)` and `rank(src_op) - distance`; at
each rank it keeps only ops from which `src_op` is forward-reachable
whose name has no `"/cond/"` fragment; it returns a member of the first
(highest) non-empty candidate set, every higher rank of the window being
empty; and when the whole window is empty no control edge is added —
`_add_control_dependency` returns the graph unchanged. -/
theorem C7_trigger_window_search (g : Graph) (t : TopoIndex)
    (fwOp srcOp swapinOp : Nat) (dist fo so : Int)
    (hfw : getOrder t fwOp = some fo) (hsrc : getOrder t srcOp = some so) :
    (∀ op i, op ∈ ddoCandidates g t srcOp i ↔
      (op ∈ getOpsByOrder t i ∧ srcOp ∈ forwardWalk g op ∧
        strHasSub "/cond/" (nodeName g op) = false)) ∧
    ((∃ c i, doDirectOrder g t fwOp srcOp dist = .ok (some (c, i)) ∧
        fo < i ∧ i < so - dist ∧ c ∈ ddoCandidates g t srcOp i ∧
        ∀ j, fo < j → j < so - dist → i < j →
          ddoCandidates g t srcOp j = []) ∨
      (doDirectOrder g t fwOp srcOp dist = .ok none ∧
       (∀ j, fo < j → j < so - dist → ddoCandidates g t srcOp j = []) ∧
       addControlDependency g t fwOp srcOp swapinOp dist = .ok g)) := by
  have hdd : doDirectOrder g t fwOp srcOp dist =
      .ok (ddoSearch g t srcOp ((intRange (fo + 1) (so - dist)).reverse)) := by
    simp only [doDirectOrder, hfw, hsrc]
  constructor
  · intro op i
    unfold ddoCandidates
    simp only [List.mem_filter, List.elem_iff, Bool.not_eq_true',
      and_assoc]
  · cases hs : ddoSearch g t srcOp ((intRange (fo + 1) (so - dist)).reverse) with
    | none =>
      right
      have hall := ddoSearch_none_elim g t srcOp _ hs
      refine ⟨by rw [hdd, hs], ?_, ?_⟩
      · intro j hj1 hj2
        exact hall j (List.mem_reverse.mpr
          ((mem_intRange (fo + 1) (so - dist) j).mpr ⟨by omega, hj2⟩))
      · unfold addControlDependency
        rw [hdd, hs]
        rfl
    | some ci =>
      obtain ⟨c, i⟩ := ci
      left
      obtain ⟨L1, L2, hL, h1, hc⟩ := ddoSearch_some_elim g t srcOp _ c i hs
      have hiL : i ∈ (intRange (fo + 1) (so - dist)).reverse := by
        rw [hL]
        exact List.mem_append_right _ (List.mem_cons_self _ _)
      have hi := (mem_intRange (fo + 1) (so - dist) i).mp
        (List.mem_reverse.mp hiL)
      refine ⟨c, i, by rw [hdd, hs], by omega, hi.2, hc, ?_⟩
      intro j hj1 hj2 hij
      have hjL : j ∈ (intRange (fo + 1) (so - dist)).reverse :=
        List.mem_reverse.mpr
          ((mem_intRange (fo + 1) (so - dist) j).mpr ⟨by omega, hj2⟩)
      rw [hL] at hjL
      rcases List.mem_append.mp hjL with hjL1 | hjtail
      · exact h1 j hjL1
      · exfalso
        have hpw : ((intRange (fo + 1) (so - dist)).reverse).Pairwise
            (fun a b => b < a) := by
          rw [List.pairwise_reverse]
          exact intRange_pairwise _ _
        rw [hL] at hpw
        have htail := (List.pairwise_append.mp hpw).2.1
        rcases List.mem_cons.mp hjtail with hj | hj
        · omega
        · have := (List.pairwise_cons.mp htail).1 j hj
          omega

/-- Witness for C7 on `graphAssign`: producer 0 (rank 0), anchor 5
(rank 4), distance 0 — the window is ranks 1..3, the search returns
node 4 at rank 3 with ranks above 3 (none) empty. -/
theorem C7_witness :
    ∃ c i, doDirectOrder graphAssign (topoBuild graphAssign) 0 5 0 =
        .ok (some (c, i)) ∧
      (0 : Int) < i ∧ i < 4 - 0 ∧
      c ∈ ddoCandidates graphAssign (topoBuild graphAssign) 5 i ∧
      ∀ j, (0 : Int) < j → j < 4 - 0 → i < j →
        ddoCandidates graphAssign (topoBuild graphAssign) 5 j = [] := by
  rcases (C7_trigger_window_search graphAssign (topoBuild graphAssign)
      0 5 900 0 0 4 (by rfl) (by rfl)).2 with h | h
  · exact h
  · exfalso
    obtain ⟨-, hall, -⟩ := h
    have := hall 3 (by omega) (by omega)
    rw [show ddoCandidates graphAssign (topoBuild graphAssign) 5 3 = [4]
      from by rfl] at this
    cases this

/-- C10: the guarded `_add_control_inputs` helper is a no-op returning
`false` when the requested control edge already exists, when the
reverse control edge exists, or when the intended predecessor `op2`
already consumes an output of `op1`; consequently it never leaves a
duplicate `op2` entry in `op1`'s control inputs and never creates a
direct two-node control cycle that was not already present. -/
theorem C10_guarded_control_edge_insertion (g : Graph) (op1 op2 : Nat) :
    ((op2 ∈ ctrlInputs g op1 ∨ op1 ∈ ctrlInputs g op2 ∨
        op2 ∈ fanouts g op1) →
      addControlInputs g op1 op2 = (false, g)) ∧
    ((ctrlInputs (addControlInputs g op1 op2).2 op1).count op2 ≤
      max ((ctrlInputs g op1).count op2) 1) ∧
    (op1 ≠ op2 →
      op2 ∈ ctrlInputs (addControlInputs g op1 op2).2 op1 →
      op1 ∈ ctrlInputs (addControlInputs g op1 op2).2 op2 →
      op2 ∈ ctrlInputs g op1 ∧ op1 ∈ ctrlInputs g op2) := by
  by_cases h1 : op2 ∈ ctrlInputs g op1
  · have hr : addControlInputs g op1 op2 = (false, g) := by
      unfold addControlInputs
      simp [h1]
    refine ⟨fun _ => hr, ?_, ?_⟩
    · rw [hr]; exact le_max_left _ _
    · rw [hr]; exact fun _ h2 h3 => ⟨h2, h3⟩
  · by_cases h2 : op1 ∈ ctrlInputs g op2
    · have hr : addControlInputs g op1 op2 = (false, g) := by
        unfold addControlInputs
        simp [h1, h2]
      refine ⟨fun _ => hr, ?_, ?_⟩
      · rw [hr]; exact le_max_left _ _
      · rw [hr]; exact fun _ ha hb => ⟨ha, hb⟩
    · by_cases h3 : op2 ∈ fanouts g op1
      · have hr : addControlInputs g op1 op2 = (false, g) := by
          unfold addControlInputs
          simp [h1, h2, h3]
        refine ⟨fun _ => hr, ?_, ?_⟩
        · rw [hr]; exact le_max_left _ _
        · rw [hr]; exact fun _ ha hb => ⟨ha, hb⟩
      · have hr : addControlInputs g op1 op2 =
            (true, geAddControlInput g op1 op2) := by
          unfold addControlInputs
          simp [h1, h2, h3]
        refine ⟨fun hor => ?_, ?_, ?_⟩
        · rcases hor with h | h | h
          · exact absurd h h1
          · exact absurd h h2
          · exact absurd h h3
        · rw [hr]
          simp only
          rw [ctrlInputs_geAddControlInput_self, List.count_append]
          have hz : (ctrlInputs g op1).count op2 = 0 :=
            List.count_eq_zero.mpr h1
          rw [hz]
          cases hs : (findNode g op1).isSome <;> simp
        · intro hne _ hb
          rw [hr] at hb
          simp only at hb
          rw [ctrlInputs_geAddControlInput_ne g op1 op2 op2
            (fun he => hne he.symm)] at hb
          exact absurd hb h2

/-- Witness for C10: a concrete no-op invocation (`op2` consumes an
output of `op1`) and a concrete pre-existing two-node cycle that the
helper leaves alone. -/
theorem C10_witness :
    addControlInputs graphSync 1 2 = (false, graphSync) ∧
    (2 ∈ ctrlInputs graphCyc 1 ∧ 1 ∈ ctrlInputs graphCyc 2) :=
  ⟨(C10_guarded_control_edge_insertion graphSync 1 2).1
      (Or.inr (Or.inr (by decide))),
   (C10_guarded_control_edge_insertion graphCyc 1 2).2.2
      (by decide) (by decide) (by decide)⟩

end LMS
